import Mathlib

/-!
Verification of the ado-sync synchronization core.

This file gives a shallow embedding of the synchronization core of the
ado-sync repository (hierarchy model, diff engine, push/pull
orchestration, the import engine, rate limiter and retrying remote
client) and proves, or refutes, the properties stated about it.

Conventions of the embedding:
* TypeScript numbers that hold ids, revisions or field values are modelled
  as `Int`; counters and times as `Nat` (milliseconds).
* `undefined`/`null` become `Option`; JavaScript truthiness tests on numbers
  (`if (!adoId)`, `local._ado?.rev && ...`) are modelled explicitly: a number
  is truthy when it is present and nonzero, a string when it is nonempty.
* Asynchronous network calls become explicit environments: a record of
  functions standing for the responses the remote service would give.
* In-place mutation becomes explicit state passing.  `flattenHierarchy`
  copies each node (`{...item, parent, depth}` in the source), so mutation
  of a flattened entry is modelled as an update of a per-entry metadata map,
  never of the document tree.
-/

set_option maxHeartbeats 1000000

namespace AdoSync

/-! ## Runtime values compared by the diff engine -/

/-- A scalar-or-array runtime value as the diff engine's `isEqual` sees it:
a string, a number, or an array of strings (tags). -/
inductive JsValue where
  | str (s : String)
  | num (n : Int)
  | arr (elems : List String)
deriving DecidableEq

/-- Insert a string into an already sorted list, keeping it sorted. -/
def insertSorted (x : String) : List String → List String
  | [] => [x]
  | y :: ys => if x ≤ y then x :: y :: ys else y :: insertSorted x ys

/-- Sort a list of strings, modelling `[...a].sort()` (JavaScript default
lexicographic order on strings). -/
def sortStrings : List String → List String
  | [] => []
  | x :: xs => insertSorted x (sortStrings xs)

/-- The diff engine's `isEqual`: absent on both sides is equal, arrays compare
sorted and by length, strings compare after trimming, everything else by
value (JavaScript `===`, hence values of different shapes are unequal). -/
def isEqual : Option JsValue → Option JsValue → Bool
  | none, b => b.isNone
  | some _, none => false
  | some (.arr a), some (.arr b) =>
      a.length == b.length && sortStrings a == sortStrings b
  | some (.str a), some (.str b) => a.trim == b.trim
  | some a, some b => a == b

/-! ## Data model: work items and documents (src/types/work-item.ts) -/

/-- A comment pulled from the remote service. -/
structure AdoComment where
  id : Int
  author : String
  date : String
  text : String
deriving DecidableEq

/-- A linked pull request pulled from the remote service. -/
structure AdoPullRequest where
  id : Int
  title : String
  status : String
  url : String
  repository : Option String := none
deriving DecidableEq

/-- A history entry stored in the metadata. -/
structure AdoHistoryEntry where
  date : String
  field : String
  oldValue : String
  newValue : String
  changedBy : String
deriving DecidableEq

/-- The `_ado` metadata block stored on a work item after sync
(`AdoMetadata` in src/types/work-item.ts).  `none` models both `null`
and an absent key. -/
structure AdoMetadata where
  workItemId : Option Int := none
  url : Option String := none
  rev : Option Int := none
  lastSyncedAt : Option String := none
  etag : Option String := none
  state : Option String := none
  assignedTo : Option String := none
  comments : Option (List AdoComment) := none
  linkedPRs : Option (List AdoPullRequest) := none
  history : Option (List AdoHistoryEntry) := none
deriving DecidableEq

/-- The scalar fields of one work item (the `WorkItem` interface without its
`children`). -/
structure WorkItemData where
  type : String
  id : String
  title : String
  description : Option String := none
  state : Option String := none
  priority : Option Int := none
  tags : Option (List String) := none
  assignedTo : Option String := none
  areaPath : Option String := none
  iterationPath : Option String := none
  valueArea : Option String := none
  businessValue : Option Int := none
  targetDate : Option String := none
  acceptanceCriteria : Option String := none
  effort : Option Int := none
  storyPoints : Option Int := none
  activity : Option String := none
  remainingWork : Option Int := none
  originalEstimate : Option Int := none
  completedWork : Option Int := none
  ado : Option AdoMetadata := none
deriving DecidableEq

/-- A work item: its scalar data plus its ordered children (the recursive
`WorkItem` interface; an absent `children` key is the empty list). -/
inductive WorkItem where
  | node (data : WorkItemData) (children : List WorkItem)

/-- The scalar data of a work item. -/
def WorkItem.data : WorkItem → WorkItemData
  | .node d _ => d

/-- The children of a work item. -/
def WorkItem.children : WorkItem → List WorkItem
  | .node _ c => c

/-- The project block of a document. -/
structure ProjectConfig where
  organization : String
  project : String
  areaPath : Option String := none
  iterationPath : Option String := none
deriving DecidableEq

/-- The root document (`WorkItemsDocument`). -/
structure WorkItemsDocument where
  schemaVersion : String
  hierarchyType : String
  project : ProjectConfig
  workItems : List WorkItem

/-! ## Remote records (src/types/ado-api.ts) -/

/-- An identity reference in a remote response. -/
structure AdoIdentityRef where
  displayName : String
  uniqueName : String := ""
deriving DecidableEq

/-- The fields block of a remote work item response (`AdoWorkItemFields`),
with the TypeScript-required fields required and the optional ones
`Option`.  Field names follow the local model's names; the reference-name
keys (`System.Title`, ...) are recovered through `FIELD_MAP` below. -/
structure AdoWorkItemFields where
  title : String
  state : String
  workItemType : String := ""
  description : Option String := none
  assignedTo : Option AdoIdentityRef := none
  areaPath : String := ""
  iterationPath : String := ""
  changedDate : String := ""
  tags : Option String := none
  priority : Option Int := none
  valueArea : Option String := none
  businessValue : Option Int := none
  effort : Option Int := none
  storyPoints : Option Int := none
  remainingWork : Option Int := none
  originalEstimate : Option Int := none
  completedWork : Option Int := none
  targetDate : Option String := none
  activity : Option String := none
  acceptanceCriteria : Option String := none
deriving DecidableEq

/-- A relation attached to a remote work item. -/
structure AdoRelation where
  rel : String
  url : String
deriving DecidableEq

/-- A remote work item response (`AdoWorkItemResponse`). -/
structure AdoWorkItemResponse where
  id : Int
  rev : Int
  url : String := ""
  fields : AdoWorkItemFields
  relations : Option (List AdoRelation) := none
deriving DecidableEq

/-! ## Diff engine (src/core/diff-engine.ts) -/

/-- The fixed list of compared fields (`COMPARE_FIELDS`). -/
inductive CompareField where
  | title | description | state | priority | assignedTo | areaPath
  | iterationPath | acceptanceCriteria | effort | storyPoints | businessValue
  | valueArea | targetDate | remainingWork | originalEstimate | completedWork
  | activity | tags
deriving DecidableEq

/-- `COMPARE_FIELDS` in the source's order. -/
def COMPARE_FIELDS : List CompareField :=
  [.title, .description, .state, .priority, .assignedTo, .areaPath,
   .iterationPath, .acceptanceCriteria, .effort, .storyPoints, .businessValue,
   .valueArea, .targetDate, .remainingWork, .originalEstimate, .completedWork,
   .activity, .tags]

/-- The local item's value of a compared field (`local[field]`). -/
def localFieldValue (d : WorkItemData) : CompareField → Option JsValue
  | .title => some (.str d.title)
  | .description => d.description.map .str
  | .state => d.state.map .str
  | .priority => d.priority.map .num
  | .assignedTo => d.assignedTo.map .str
  | .areaPath => d.areaPath.map .str
  | .iterationPath => d.iterationPath.map .str
  | .acceptanceCriteria => d.acceptanceCriteria.map .str
  | .effort => d.effort.map .num
  | .storyPoints => d.storyPoints.map .num
  | .businessValue => d.businessValue.map .num
  | .valueArea => d.valueArea.map .str
  | .targetDate => d.targetDate.map .str
  | .remainingWork => d.remainingWork.map .num
  | .originalEstimate => d.originalEstimate.map .num
  | .completedWork => d.completedWork.map .num
  | .activity => d.activity.map .str
  | .tags => d.tags.map .arr

/-- Split a remote tags string on `"; "` and drop empty pieces, as
`tagsString.split('; ').filter(Boolean)` does. -/
def splitTags (s : String) : List String :=
  (s.splitOn "; ").filter (fun t => t ≠ "")

/-- `getAdoFieldValue`: read a compared field out of a remote response.
The tags string is split only when truthy (nonempty). -/
def getAdoFieldValue (ado : AdoWorkItemResponse) : CompareField → Option JsValue
  | .title => some (.str ado.fields.title)
  | .description => ado.fields.description.map .str
  | .state => some (.str ado.fields.state)
  | .priority => ado.fields.priority.map .num
  | .assignedTo => ado.fields.assignedTo.map (fun a => .str a.displayName)
  | .areaPath => some (.str ado.fields.areaPath)
  | .iterationPath => some (.str ado.fields.iterationPath)
  | .acceptanceCriteria => ado.fields.acceptanceCriteria.map .str
  | .effort => ado.fields.effort.map .num
  | .storyPoints => ado.fields.storyPoints.map .num
  | .businessValue => ado.fields.businessValue.map .num
  | .valueArea => ado.fields.valueArea.map .str
  | .targetDate => ado.fields.targetDate.map .str
  | .remainingWork => ado.fields.remainingWork.map .num
  | .originalEstimate => ado.fields.originalEstimate.map .num
  | .completedWork => ado.fields.completedWork.map .num
  | .activity => ado.fields.activity.map .str
  | .tags =>
      match ado.fields.tags with
      | none => none
      | some s => if s = "" then none else some (.arr (splitTags s))

/-- The status a diff can carry (`WorkItemDiff['status']`). -/
inductive DiffStatus where
  | new | modified | deleted | unchanged | conflict
deriving DecidableEq

/-- One reported field change. -/
structure FieldChange where
  field : CompareField
  localValue : Option JsValue := none
  adoValue : Option JsValue := none
deriving DecidableEq

/-- The result of diffing one local item against at most one remote record. -/
structure WorkItemDiff where
  localId : String
  adoId : Option Int
  status : DiffStatus
  changes : List FieldChange
deriving DecidableEq

/-- The recorded prior revision as the code tests it: `local._ado?.rev`
is truthy exactly when the metadata is present and its `rev` is present and
nonzero. -/
def recordedRevision (ado : Option AdoMetadata) : Option Int :=
  match ado with
  | none => none
  | some m =>
    match m.rev with
    | none => none
    | some r => if r = 0 then none else some r

/-- `diffWorkItem`: with no remote record the status is `new` and every set
compared field is a change; otherwise the compared fields are checked with
`isEqual`, and the status is `conflict` when there are changes and the
remote revision strictly exceeds the truthy recorded revision, `modified`
when there are changes otherwise, and `unchanged` without changes. -/
def diffWorkItem (localItem : WorkItemData) (ado : Option AdoWorkItemResponse) :
    WorkItemDiff :=
  match ado with
  | none =>
    { localId := localItem.id, adoId := none, status := .new,
      changes :=
        (COMPARE_FIELDS.filter (fun f => (localFieldValue localItem f).isSome)).map
          (fun f => { field := f, localValue := localFieldValue localItem f,
                      adoValue := none }) }
  | some adoItem =>
    let changes := COMPARE_FIELDS.filterMap (fun f =>
      let lv := localFieldValue localItem f
      let av := getAdoFieldValue adoItem f
      if isEqual lv av then none
      else some { field := f, localValue := lv, adoValue := av })
    let status : DiffStatus :=
      if changes.length > 0 then
        match recordedRevision localItem.ado with
        | some r => if adoItem.rev > r then .conflict else .modified
        | none => .modified
      else .unchanged
    { localId := localItem.id, adoId := some adoItem.id, status := status,
      changes := changes }

/-- `hasLocalChanges`: the diff reports at least one field change. -/
def hasLocalChanges (localItem : WorkItemData) (ado : AdoWorkItemResponse) : Bool :=
  decide ((diffWorkItem localItem (some ado)).changes.length > 0)

/-- The per-status counts reported by `getDiffSummary`. -/
structure DiffSummary where
  new : Nat
  modified : Nat
  unchanged : Nat
  conflict : Nat
  deleted : Nat
deriving DecidableEq

/-- `getDiffSummary`: count the diffs per status. -/
def getDiffSummary (diffs : List WorkItemDiff) : DiffSummary :=
  { new := (diffs.filter (fun d => decide (d.status = .new))).length,
    modified := (diffs.filter (fun d => decide (d.status = .modified))).length,
    unchanged := (diffs.filter (fun d => decide (d.status = .unchanged))).length,
    conflict := (diffs.filter (fun d => decide (d.status = .conflict))).length,
    deleted := (diffs.filter (fun d => decide (d.status = .deleted))).length }

/-! ## Hierarchy model (core/hierarchy.ts) -/

/-- A flattened entry: the copy `{...item, parent, depth}` the traversal
pushes.  The copy keeps the whole node (its stale metadata and its children
array) and a reference to its parent's entry. -/
inductive FlatEntry where
  | mk (item : WorkItem) (parent : Option FlatEntry) (depth : Nat)

/-- The node an entry copies. -/
def FlatEntry.item : FlatEntry → WorkItem
  | .mk i _ _ => i

/-- The parent entry an entry references. -/
def FlatEntry.parent : FlatEntry → Option FlatEntry
  | .mk _ p _ => p

/-- The depth recorded on an entry. -/
def FlatEntry.depth : FlatEntry → Nat
  | .mk _ _ d => d

/-- The `traverse` closure of `flattenHierarchy`: push the entry, then
traverse its children with the entry as parent, then the remaining
siblings. -/
def flattenGo : List WorkItem → Option FlatEntry → Nat → List FlatEntry
  | [], _, _ => []
  | WorkItem.node d c :: xs, parent, depth =>
    let e := FlatEntry.mk (WorkItem.node d c) parent depth
    (e :: flattenGo c (some e) (depth + 1)) ++ flattenGo xs parent depth

/-- `flattenHierarchy`: depth-first, parent before children. -/
def flattenHierarchy (doc : WorkItemsDocument) : List FlatEntry :=
  flattenGo doc.workItems none 0

/-- The `traverse` closure of `flattenHierarchyReverse`: children first,
then the entry, then the remaining siblings. -/
def flattenReverseGo : List WorkItem → Option FlatEntry → Nat → List FlatEntry
  | [], _, _ => []
  | WorkItem.node d c :: xs, parent, depth =>
    let e := FlatEntry.mk (WorkItem.node d c) parent depth
    (flattenReverseGo c (some e) (depth + 1) ++ [e]) ++
      flattenReverseGo xs parent depth

/-- `flattenHierarchyReverse`: children before parents. -/
def flattenHierarchyReverse (doc : WorkItemsDocument) : List FlatEntry :=
  flattenReverseGo doc.workItems none 0

/-- `countItems`: the number of nodes of a forest. -/
def countItems : List WorkItem → Nat
  | [] => 0
  | WorkItem.node _ c :: xs => 1 + countItems c + countItems xs

/-- The search closure of `findItemById`: first match depth-first. -/
def searchById (idStr : String) : List WorkItem → Option WorkItem
  | [] => none
  | WorkItem.node d c :: xs =>
    if d.id = idStr then some (WorkItem.node d c)
    else
      match searchById idStr c with
      | some found => some found
      | none => searchById idStr xs

/-- `findItemById`: find a node by local id, `none` rather than an error. -/
def findItemById (doc : WorkItemsDocument) (idStr : String) : Option WorkItem :=
  searchById idStr doc.workItems

/-! ## Specification-side orders (for the refinement claims about the
hierarchy model) -/

/-- Specification-side canonical pre-order listing of a forest: each node
once, every parent before its children.  Stated from the spec's words to
compare `flattenHierarchy` against. -/
def preorder : List WorkItem → List WorkItem
  | [] => []
  | WorkItem.node d c :: xs =>
    WorkItem.node d c :: (preorder c ++ preorder xs)

/-- Specification-side canonical post-order listing of a forest: each node
once, every child before its parent. -/
def postorder : List WorkItem → List WorkItem
  | [] => []
  | WorkItem.node d c :: xs =>
    (postorder c ++ [WorkItem.node d c]) ++ postorder xs

/-! ## Work items API (ado/work-items.ts) -/

/-- A JSON-Patch operation sent to the remote service. -/
structure JsonPatchOperation where
  op : String
  path : String
  value : Option JsValue := none
deriving DecidableEq

/-- The static `FIELD_MAP` from local field names to remote reference names. -/
def FIELD_MAP : CompareField → String
  | .title => "System.Title"
  | .description => "System.Description"
  | .state => "System.State"
  | .assignedTo => "System.AssignedTo"
  | .areaPath => "System.AreaPath"
  | .iterationPath => "System.IterationPath"
  | .priority => "Microsoft.VSTS.Common.Priority"
  | .effort => "Microsoft.VSTS.Scheduling.Effort"
  | .storyPoints => "Microsoft.VSTS.Scheduling.StoryPoints"
  | .businessValue => "Microsoft.VSTS.Common.BusinessValue"
  | .acceptanceCriteria => "Microsoft.VSTS.Common.AcceptanceCriteria"
  | .valueArea => "Microsoft.VSTS.Common.ValueArea"
  | .targetDate => "Microsoft.VSTS.Scheduling.TargetDate"
  | .remainingWork => "Microsoft.VSTS.Scheduling.RemainingWork"
  | .originalEstimate => "Microsoft.VSTS.Scheduling.OriginalEstimate"
  | .completedWork => "Microsoft.VSTS.Scheduling.CompletedWork"
  | .activity => "Microsoft.VSTS.Common.Activity"
  | .tags => "System.Tags"

/-- The order in which `buildPatchDocument` lists its field mappings. -/
def PATCH_FIELD_ORDER : List CompareField :=
  [.title, .description, .state, .assignedTo, .areaPath, .iterationPath,
   .priority, .effort, .storyPoints, .businessValue, .acceptanceCriteria,
   .valueArea, .targetDate, .remainingWork, .originalEstimate, .completedWork,
   .activity, .tags]

/-- The tags mapping's transform: join the array with `"; "`. -/
def tagsTransform : JsValue → JsValue
  | .arr elems => .str (String.intercalate "; " elems)
  | v => v

/-- `buildPatchDocument`: one `add` operation per set field, in the mapping
order, the tags array joined into the delimited string. -/
def buildPatchDocument (d : WorkItemData) : List JsonPatchOperation :=
  PATCH_FIELD_ORDER.filterMap (fun f =>
    match localFieldValue d f with
    | none => none
    | some v =>
      some { op := "add", path := "/fields/" ++ FIELD_MAP f,
             value := some (if f = .tags then tagsTransform v else v) })

/-- The patch document `updateWorkItem` sends: when an expected revision is
given, a `test` operation on `/rev` is unshifted in front of the field
operations. -/
def updateWorkItemPatch (d : WorkItemData) (expectedRev : Option Int) :
    List JsonPatchOperation :=
  let patchDocument := buildPatchDocument d
  match expectedRev with
  | some r => { op := "test", path := "/rev", value := some (.num r) } :: patchDocument
  | none => patchDocument

/-- The remote edit url of a work item. -/
def itemUrl (organization project : String) (id : Int) : String :=
  "https://dev.azure.com/" ++ organization ++ "/" ++ project ++
    "/_workitems/edit/" ++ toString id

/-- The metadata object `extractAdoMetadata` builds from a response.  Its
`comments`/`linkedPRs` components model whether pull later set those keys
on the object before it is merged into the item (absent from
`extractAdoMetadata` itself). -/
structure FetchedMetadata where
  workItemId : Option Int
  url : Option String
  rev : Option Int
  lastSyncedAt : Option String
  state : Option String
  assignedTo : Option String
  comments : Option (List AdoComment) := none
  linkedPRs : Option (List AdoPullRequest) := none
deriving DecidableEq

/-- `extractAdoMetadata`: id, url, revision, sync time (the current time,
supplied as `nowIso`), remote state and assignee. -/
def extractAdoMetadata (response : AdoWorkItemResponse)
    (project organization : String) (nowIso : String) : FetchedMetadata :=
  { workItemId := some response.id,
    url := some (itemUrl organization project response.id),
    rev := some response.rev,
    lastSyncedAt := some nowIso,
    state := some response.fields.state,
    assignedTo := response.fields.assignedTo.map (fun a => a.displayName) }

/-- The extracted metadata as a plain `_ado` block (direct assignment, as
the import engine does). -/
def FetchedMetadata.toAdoMetadata (m : FetchedMetadata) : AdoMetadata :=
  { workItemId := m.workItemId, url := m.url, rev := m.rev,
    lastSyncedAt := m.lastSyncedAt, state := m.state,
    assignedTo := m.assignedTo }

/-- `updateItemMetadata`: `item._ado = {...item._ado, ...metadata}`.  Every
key of the fetched object (present even when its value is undefined)
overwrites; keys it does not carry (`etag`, `history`, and
`comments`/`linkedPRs` unless pull set them) survive from the old block. -/
def updateItemMetadata (old : Option AdoMetadata) (m : FetchedMetadata) :
    AdoMetadata :=
  { workItemId := m.workItemId, url := m.url, rev := m.rev,
    lastSyncedAt := m.lastSyncedAt, state := m.state,
    assignedTo := m.assignedTo,
    etag := old.bind (fun o => o.etag),
    history := old.bind (fun o => o.history),
    comments := match m.comments with
      | some cs => some cs
      | none => old.bind (fun o => o.comments),
    linkedPRs := match m.linkedPRs with
      | some ps => some ps
      | none => old.bind (fun o => o.linkedPRs) }

/-- The child link type (`LINK_TYPES.CHILD`). -/
def CHILD_LINK : String := "System.LinkTypes.Hierarchy-Forward"

/-- Extract the trailing work item id of a relation url, modelling the
match against `\/workItems\/(\d+)$`: the url ends in a `/workItems/`
segment followed by digits. -/
def parseWorkItemUrlId (url : String) : Option Int :=
  match (url.splitOn "/").reverse with
  | last :: "workItems" :: _ :: _ =>
    if last ≠ "" && last.toList.all Char.isDigit then
      (last.toNat?).map Int.ofNat
    else none
  | _ => none

/-- `getChildIds`: the ids parsed from the child-typed relations. -/
def getChildIds (workItem : AdoWorkItemResponse) : List Int :=
  match workItem.relations with
  | none => []
  | some rels =>
    (rels.filter (fun rel => decide (rel.rel = CHILD_LINK))).filterMap
      (fun rel => parseWorkItemUrlId rel.url)

/-! ## Rate limiter (ado/rate-limiter.ts) -/

/-- The rate limiter's options (defaults 100 requests / 60000 ms). -/
structure RateLimiterOptions where
  maxRequestsPerMinute : Nat := 100
  windowMs : Nat := 60000
deriving DecidableEq

/-- The rate limiter's mutable state: the request counter and the window
start (milliseconds). -/
structure RateLimiterState where
  requestCount : Nat := 0
  windowStart : Nat := 0
deriving DecidableEq

/-- `RateLimiter.throttle`, called before each request: reset the counter
when the window has elapsed; when the counter has reached 80% of the
allowance, suspend for the remainder of the window, reset, and only then
count the request.  The check `requestCount >= max * 0.8` is modelled by
the exact comparison `5 * requestCount ≥ 4 * max` (for the allowances the
claims use — multiples of five — the floating-point product is exact).
Sleeping is ideal: after a sleep of `w` the clock reads `now + w`.
Returns the new state and the slept duration, `none` when no suspension
happened. -/
def throttle (cfg : RateLimiterOptions) (s : RateLimiterState) (now : Nat) :
    RateLimiterState × Option Nat :=
  let s1 := if now - s.windowStart ≥ cfg.windowMs then
      { requestCount := 0, windowStart := now }
    else s
  if 5 * s1.requestCount ≥ 4 * cfg.maxRequestsPerMinute then
    let waitTime := cfg.windowMs - (now - s1.windowStart)
    -- after the sleep the counter is reset to 0, the window restarted at the
    -- wake time, and the increment then counts this request
    ({ requestCount := 1, windowStart := now + waitTime }, some waitTime)
  else
    ({ s1 with requestCount := s1.requestCount + 1 }, none)

/-- `RateLimiter.handleRetryAfter`: sleep the given seconds, then reset the
counter and restart the window at the wake time.  Returns the new state and
the slept milliseconds. -/
def handleRetryAfter (s : RateLimiterState) (now : Nat)
    (retryAfterSeconds : Nat) : RateLimiterState × Nat :=
  let _ := s
  ({ requestCount := 0, windowStart := now + retryAfterSeconds * 1000 },
   retryAfterSeconds * 1000)

/-! ## Remote client error handling (ado/client.ts) -/

/-- What the service answers one attempt of a request with. -/
inductive HttpResponse where
  | ok (item : AdoWorkItemResponse)
  | tooManyRequests (retryAfter : Option String)
  | failed (message : String)

/-- Digits of a decimal string as a number. -/
def digitsToNat (l : List Char) : Nat :=
  l.foldl (fun acc c => acc * 10 + (c.toNat - '0'.toNat)) 0

/-- The client's `parseInt(headers['retry-after'], 10) || 60`: an absent
header, a header with no leading digits (`NaN`) and a parsed zero all give
60.  The digit-prefix parse models `parseInt` on the non-negative headers
the service sends. -/
def parseRetryAfter (header : Option String) : Nat :=
  match header with
  | none => 60
  | some s =>
    let digits := ((s.toList.dropWhile Char.isWhitespace).takeWhile Char.isDigit)
    if digits.isEmpty then 60
    else
      let n := digitsToNat digits
      if n = 0 then 60 else n

/-- One request through the client's interceptor chain
(`AdoClient.handleError`): the k-th entry of `responses` is the service's
answer to the k-th attempt.  Each attempt first throttles (the request
interceptor); a "too many requests" answer suspends for the parsed
retry-after delay, resets the rate limiter, and issues the request again
through the same interceptors — which handle a repeated 429 the same way;
any other failure propagates; a success returns.  Yields the outcome, the
slept durations in order, the final limiter state and the final clock. -/
def sendWithRetries (cfg : RateLimiterOptions) :
    List HttpResponse → RateLimiterState → Nat →
    Except String AdoWorkItemResponse × List Nat × RateLimiterState × Nat
  | [], rl, now => (.error "no response", [], rl, now)
  | r :: rest, rl, now =>
    let (rl1, slept) := throttle cfg rl now
    let now1 := now + slept.getD 0
    match r with
    | .ok item => (.ok item, slept.toList, rl1, now1)
    | .failed msg => (.error msg, slept.toList, rl1, now1)
    | .tooManyRequests header =>
      let retryAfter := parseRetryAfter header
      let (rl2, sleptRetry) := handleRetryAfter rl1 now1 retryAfter
      let now2 := now1 + sleptRetry
      let (res, sleeps, rl3, now3) := sendWithRetries cfg rest rl2 now2
      (res, slept.toList ++ sleptRetry :: sleeps, rl3, now3)

/-! ## Filter matching (utils) -/

/-- Modelled from the spec: `matchesFilter` lives in the utilities module,
which is not among the repository's files; per the spec it is glob-style
matching where `*` matches any run of characters, `?` exactly one
character, and all other regex metacharacters are escaped literally.  The
fuel only bounds the recursion (every step shortens pattern plus input);
the caller passes enough for the match to complete. -/
def globMatchGo : Nat → List Char → List Char → Bool
  | 0, _, _ => false
  | _ + 1, [], [] => true
  | fuel + 1, '*' :: ps, [] => globMatchGo fuel ps []
  | fuel + 1, '*' :: ps, c :: cs =>
      globMatchGo fuel ps (c :: cs) || globMatchGo fuel ('*' :: ps) cs
  | fuel + 1, '?' :: ps, _ :: cs => globMatchGo fuel ps cs
  | fuel + 1, p :: ps, c :: cs => (p == c) && globMatchGo fuel ps cs
  | _ + 1, _ :: _, [] => false
  | _ + 1, [], _ :: _ => false

/-- Modelled from the spec: glob match of a local id against a pattern. -/
def matchesFilter (s pat : String) : Bool :=
  globMatchGo (pat.toList.length + s.toList.length + 1) pat.toList s.toList

/-! ## Sync orchestrator (core/sync-engine.ts) -/

/-- The actions a push decision can take. -/
inductive SyncAction where
  | create | update | skip | conflict | delete
deriving DecidableEq

/-- An action's name as the log strings spell it. -/
def actionName : SyncAction → String
  | .create => "create"
  | .update => "update"
  | .skip => "skip"
  | .conflict => "conflict"
  | .delete => "delete"

/-- The diagnostics a conflict decision carries (the `Conflict` interface,
its `unknown`-typed value slots holding the two revisions here). -/
structure Conflict where
  localId : String
  adoId : Int
  field : String
  localValue : Int
  adoValue : Int
  adoModifiedAt : String
  localSyncedAt : String
deriving DecidableEq

/-- A per-item sync decision. -/
structure SyncDecision where
  action : SyncAction
  reason : String
  conflict : Option Conflict := none
deriving DecidableEq

/-- Push options. -/
structure PushOptions where
  dryRun : Bool := false
  force : Bool := false
  createOnly : Bool := false
  updateOnly : Bool := false
  filter : Option String := none
deriving DecidableEq

/-- Pull options. -/
structure PullOptions where
  includeComments : Bool := false
  includePRs : Bool := false
  includeHistory : Bool := false
  overwriteLocal : Bool := false
deriving DecidableEq

/-- A per-item sync result. -/
structure SyncResult where
  localId : String
  action : SyncAction
  success : Bool
  workItemId : Option Int := none
  url : Option String := none
  error : Option String := none
  message : Option String := none
deriving DecidableEq

/-- Default field values from the configuration. -/
structure DefaultsConfig where
  areaPath : Option String := none
  iterationPath : Option String := none
  state : Option String := none
  priority : Option Int := none
deriving DecidableEq

/-- The resolved configuration slice the sync core reads. -/
structure ResolvedConfig where
  organization : String
  project : String
  defaults : DefaultsConfig := {}
  includeComments : Bool := true
  includePRs : Bool := true
  includeHistory : Bool := false
deriving DecidableEq

/-- JS truthiness of `_ado?.workItemId`: the id, when the metadata block is
present and the id is present and nonzero. -/
def truthyWorkItemId (ado : Option AdoMetadata) : Option Int :=
  match ado with
  | none => none
  | some m =>
    match m.workItemId with
    | none => none
    | some i => if i = 0 then none else some i

/-- `determineSyncAction`.  `fetched` stands for the outcome of
`getWorkItem(client, adoId, 'Relations')` for the item's recorded id:
`none` models the thrown fetch (remote deletion), and is ignored when the
decision never fetches. -/
def determineSyncAction (item : WorkItemData)
    (fetched : Option AdoWorkItemResponse) (options : PushOptions) :
    SyncDecision :=
  match truthyWorkItemId item.ado with
  | none =>
    if options.updateOnly then
      { action := .skip, reason := "Update-only mode, skipping new item" }
    else { action := .create, reason := "No ADO ID - new item" }
  | some adoId =>
    if options.createOnly then
      { action := .skip, reason := "Create-only mode, skipping existing item" }
    else
      match fetched with
      | none =>
        if options.updateOnly then
          { action := .skip,
            reason := "ADO item not found, skipping in update-only mode" }
        else { action := .create, reason := "ADO item deleted - recreating" }
      | some adoItem =>
        let noConflict : SyncDecision :=
          if hasLocalChanges item adoItem then
            { action := .update, reason := "Local changes detected" }
          else { action := .skip, reason := "No changes" }
        match (if options.force then none else recordedRevision item.ado) with
        | some r =>
          if adoItem.rev > r then
            { action := .conflict, reason := "ADO modified since last sync",
              conflict := some
                { localId := item.id, adoId := adoId, field := "revision",
                  localValue := r, adoValue := adoItem.rev,
                  adoModifiedAt := adoItem.fields.changedDate,
                  localSyncedAt :=
                    (item.ado.bind (fun m => m.lastSyncedAt)).getD "unknown" } }
          else noConflict
        | none => noConflict

/-- `applyDefaults`: fill unset area path, iteration path, state and
priority from the configured defaults. -/
def applyDefaults (item : WorkItemData) (config : ResolvedConfig) :
    WorkItemData :=
  { item with
    areaPath := item.areaPath.or config.defaults.areaPath,
    iterationPath := item.iterationPath.or config.defaults.iterationPath,
    state := item.state.or config.defaults.state,
    priority := item.priority.or config.defaults.priority }

/-- The remote service as push sees it.  `createResp`/`updateResp` answer
the posted patch documents, `linkResp` the parent-link patch, `fetch` a
single-item read; `.error` models a thrown request.  `nowIso` is the
current time `extractAdoMetadata` stamps. -/
structure PushEnv where
  fetch : Int → Except String AdoWorkItemResponse
  createResp : String → List JsonPatchOperation → Except String AdoWorkItemResponse
  updateResp : Int → List JsonPatchOperation → Except String AdoWorkItemResponse
  linkResp : Int → Int → Except String AdoWorkItemResponse
  nowIso : String

/-- `createWorkItem`: build the patch document for the fields and post it. -/
def createWorkItem (env : PushEnv) (type : String) (fields : WorkItemData) :
    Except String AdoWorkItemResponse :=
  env.createResp type (buildPatchDocument fields)

/-- `updateWorkItem`: build the patch document, unshift the revision `test`
when an expected revision is given, and send it. -/
def updateWorkItem (env : PushEnv) (id : Int) (fields : WorkItemData)
    (expectedRev : Option Int) : Except String AdoWorkItemResponse :=
  env.updateResp id (updateWorkItemPatch fields expectedRev)

/-- `addParentLink`. -/
def addParentLink (env : PushEnv) (childId parentId : Int) :
    Except String AdoWorkItemResponse :=
  env.linkResp childId parentId

/-- An entry of the flattened push worklist.  The source's entries are the
`{...item, parent, depth}` copies, whose `parent` field aliases the parent's
(mutable) entry; here an entry names its parent by position in the
flattened list, so the loop's mutation of an entry's `_ado` — kept in a
per-position map — is seen by its children exactly as the aliasing makes
it in the source. -/
structure PushEntry where
  item : WorkItem
  parentIdx : Option Nat
  depth : Nat

/-- The indexed rendering of `flattenHierarchy`'s traversal: same order,
same depths, parents by position. -/
def flattenIdxGo : List WorkItem → Option Nat → Nat → Nat → List PushEntry
  | [], _, _, _ => []
  | WorkItem.node d c :: xs, parentIdx, depth, start =>
    let e : PushEntry :=
      { item := WorkItem.node d c, parentIdx := parentIdx, depth := depth }
    let sub := flattenIdxGo c (some start) (depth + 1) (start + 1)
    e :: sub ++ flattenIdxGo xs parentIdx depth (start + 1 + sub.length)

/-- The flattened, indexed worklist of a document. -/
def flattenHierarchyIdx (doc : WorkItemsDocument) : List PushEntry :=
  flattenIdxGo doc.workItems none 0 0

/-- The initial per-entry metadata map: each flattened copy starts with the
`_ado` block it copied from its node. -/
def initMetas (entries : List PushEntry) : Nat → Option AdoMetadata :=
  fun i => (entries.get? i).bind (fun e => e.item.data.ado)

/-- `executeAction`: run one decision.  `parentMeta` is the parent entry's
current metadata (the loop's mutable state), read for the parent link; a
`.error` is a thrown request the caller catches. -/
def executeAction (env : PushEnv) (cfg : ResolvedConfig) (entry : PushEntry)
    (parentMeta : Option AdoMetadata) (decision : SyncDecision) :
    Except String SyncResult :=
  let d := entry.item.data
  match decision.action with
  | .create =>
    let fields := applyDefaults d cfg
    match createWorkItem env d.type fields with
    | .error e => .error e
    | .ok response =>
      let linked : Except String Unit :=
        match truthyWorkItemId parentMeta with
        | some parentId =>
          match addParentLink env response.id parentId with
          | .error e => .error e
          | .ok _ => .ok ()
        | none => .ok ()
      match linked with
      | .error e => .error e
      | .ok _ =>
        .ok { localId := d.id, action := .create, success := true,
              workItemId := some response.id,
              url := some (itemUrl cfg.organization cfg.project response.id),
              message := some ("Created work item #" ++ toString response.id) }
  | .update =>
    -- item._ado!.workItemId! — update decisions only arise with a truthy id
    let adoId := (truthyWorkItemId d.ado).getD 0
    let expectedRev := d.ado.bind (fun m => m.rev)
    match updateWorkItem env adoId d expectedRev with
    | .error e => .error e
    | .ok _ =>
      .ok { localId := d.id, action := .update, success := true,
            workItemId := some adoId,
            url := some (itemUrl cfg.organization cfg.project adoId),
            message := some ("Updated work item #" ++ toString adoId) }
  | .skip =>
    .ok { localId := d.id, action := .skip, success := true,
          workItemId := d.ado.bind (fun m => m.workItemId),
          message := some decision.reason }
  | .conflict =>
    .ok { localId := d.id, action := .conflict, success := false,
          workItemId := d.ado.bind (fun m => m.workItemId),
          error := some decision.reason }
  | .delete =>
    .ok { localId := d.id, action := .skip, success := true,
          message := some "Unknown action" }

/-- One iteration of the push loop over one (filter-matched) entry: decide,
execute, and on a successful create/update re-fetch the item and overwrite
the entry copy's metadata in the per-position map.  When the re-fetch
throws after the result was already recorded, the catch records a second,
failed result for the same item. -/
def processPushItem (env : PushEnv) (cfg : ResolvedConfig)
    (opts : PushOptions) (entry : PushEntry) (selfIdx : Nat)
    (metas : Nat → Option AdoMetadata) :
    List SyncResult × (Nat → Option AdoMetadata) :=
  let d := entry.item.data
  let fetched := match truthyWorkItemId d.ado with
    | some adoId => (env.fetch adoId).toOption
    | none => none
  let decision := determineSyncAction d fetched opts
  if opts.dryRun then
    ([{ localId := d.id, action := decision.action, success := true,
        message := some ("[DRY RUN] Would " ++ actionName decision.action ++
          ": " ++ decision.reason) }], metas)
  else
    let parentMeta := match entry.parentIdx with
      | some pi => metas pi
      | none => none
    match executeAction env cfg entry parentMeta decision with
    | .error e =>
      ([{ localId := d.id, action := decision.action, success := false,
          error := some e }], metas)
    | .ok result =>
      if result.success = true ∧ (result.action = .create ∨ result.action = .update) then
        -- result.workItemId! — create/update results always carry the id
        match env.fetch (result.workItemId.getD 0) with
        | .error e =>
          ([result,
            { localId := d.id, action := decision.action, success := false,
              error := some e }], metas)
        | .ok adoItem =>
          let metadata :=
            extractAdoMetadata adoItem cfg.project cfg.organization env.nowIso
          ([result],
           fun j => if j = selfIdx then
               some (updateItemMetadata (metas selfIdx) metadata)
             else metas j)
      else ([result], metas)

/-- The push loop over the remaining entries, `i` the absolute position of
the head entry; entries whose id does not match the filter are skipped. -/
def pushGo (env : PushEnv) (cfg : ResolvedConfig) (opts : PushOptions)
    (filterStr : String) :
    List PushEntry → Nat → (Nat → Option AdoMetadata) →
    List SyncResult × (Nat → Option AdoMetadata)
  | [], _, metas => ([], metas)
  | e :: rest, i, metas =>
    if matchesFilter e.item.data.id filterStr then
      let (res, metas1) := processPushItem env cfg opts e i metas
      let (tail, metas2) := pushGo env cfg opts filterStr rest (i + 1) metas1
      (res ++ tail, metas2)
    else pushGo env cfg opts filterStr rest (i + 1) metas

/-- `pushWorkItems`: flatten (parents before children), filter by the
local-id pattern (default `*`), process the entries in order.  The
metadata refreshes are written to the flattened `{...item, parent, depth}`
copies — the per-position map here — so the document tree itself is
returned exactly as it came in. -/
def pushWorkItems (env : PushEnv) (doc : WorkItemsDocument)
    (cfg : ResolvedConfig) (opts : PushOptions) :
    List SyncResult × WorkItemsDocument :=
  let filterStr := opts.filter.getD "*"
  let entries := flattenHierarchyIdx doc
  let (results, _) := pushGo env cfg opts filterStr entries 0 (initMetas entries)
  (results, doc)

/-- The final per-copy metadata map of a push run (what the mutated
flattened copies hold when the run ends — not the document). -/
def pushFinalMetas (env : PushEnv) (doc : WorkItemsDocument)
    (cfg : ResolvedConfig) (opts : PushOptions) : Nat → Option AdoMetadata :=
  let filterStr := opts.filter.getD "*"
  let entries := flattenHierarchyIdx doc
  (pushGo env cfg opts filterStr entries 0 (initMetas entries)).2

/-- The remote service as pull sees it: the batch store, the comments
endpoint and the pull-request resolution, each able to throw. -/
structure PullEnv where
  store : Int → Option AdoWorkItemResponse
  comments : Int → Except String (List AdoComment)
  prs : AdoWorkItemResponse → Except String (List AdoPullRequest)
  nowIso : String

/-- `getWorkItems`: the batched read.  The source chunks the id list by 200
and concatenates the per-chunk responses; the concatenation over chunks
equals this single pass, each present id answered in order. -/
def getWorkItemsBatch (env : PullEnv) (ids : List Int) :
    List AdoWorkItemResponse :=
  ids.filterMap env.store

/-- Lookup in `new Map(adoItems.map(i => [i.id, i]))`: the last entry with
the key wins. -/
def mapGetLast (items : List AdoWorkItemResponse) (k : Int) :
    Option AdoWorkItemResponse :=
  items.foldl (fun acc it => if it.id = k then some it else acc) none

/-- One pulled item: look its recorded id up in the batch map; when absent,
a failed result and the local item untouched; when present, extract the
metadata, optionally fetch comments and pull requests (a per-item throw is
caught as a failed result), and write the merged block onto the flattened
copy — the merge is computed here exactly as `updateItemMetadata` does,
and discarded, because the copy is not the document's node. -/
def pullOne (env : PullEnv) (cfg : ResolvedConfig) (opts : PullOptions)
    (adoItems : List AdoWorkItemResponse) (d : WorkItemData) : SyncResult :=
  -- item._ado!.workItemId! — the caller filtered on a truthy id
  let adoId := (truthyWorkItemId d.ado).getD 0
  match mapGetLast adoItems adoId with
  | none =>
    { localId := d.id, action := .skip, success := false,
      workItemId := some adoId, error := some "Work item not found in ADO" }
  | some adoItem =>
    let base := extractAdoMetadata adoItem cfg.project cfg.organization env.nowIso
    let withComments : Except String FetchedMetadata :=
      if opts.includeComments then
        (env.comments adoId).map (fun cs => { base with comments := some cs })
      else .ok base
    match withComments with
    | .error e =>
      { localId := d.id, action := .skip, success := false,
        workItemId := some adoId, error := some e }
    | .ok m1 =>
      let withPRs : Except String FetchedMetadata :=
        if opts.includePRs then
          (env.prs adoItem).map (fun ps => { m1 with linkedPRs := some ps })
        else .ok m1
      match withPRs with
      | .error e =>
        { localId := d.id, action := .skip, success := false,
          workItemId := some adoId, error := some e }
      | .ok m2 =>
        let _ := updateItemMetadata d.ado m2
        { localId := d.id, action := .update, success := true,
          workItemId := some adoId,
          message := some ("Pulled updates for #" ++ toString adoId) }

/-- `pullWorkItems`: collect the items that record a (truthy) remote id —
none means an empty result list — batch-fetch them, and process each in
order; a missing or failing item yields a failed result and processing
continues.  The metadata writes land on the flattened copies, so the
document is returned exactly as it came in. -/
def pullWorkItems (env : PullEnv) (doc : WorkItemsDocument)
    (cfg : ResolvedConfig) (opts : PullOptions) :
    List SyncResult × WorkItemsDocument :=
  let items := flattenHierarchy doc
  let itemsWithAdoId :=
    items.filter (fun e => (truthyWorkItemId e.item.data.ado).isSome)
  if itemsWithAdoId.isEmpty then ([], doc)
  else
    let adoIds :=
      itemsWithAdoId.map (fun e => (truthyWorkItemId e.item.data.ado).getD 0)
    let adoItems := getWorkItemsBatch env adoIds
    (itemsWithAdoId.map (fun e => pullOne env cfg opts adoItems e.item.data),
     doc)

/-! ## Import engine (core/import-engine.ts) -/

/-- Case-insensitive prefix test on character lists (the source's regexes
carry the `i` flag). -/
def isPrefixCI : List Char → List Char → Bool
  | [], _ => true
  | _ :: _, [] => false
  | p :: ps, c :: cs => p.toLower == c.toLower && isPrefixCI ps cs

/-- Replace every occurrence of the (nonempty) pattern `p :: ps`,
case-insensitively, by `rep`; each replace pass of the source scans the
whole string once. -/
def replaceCIGo (p : Char) (ps rep : List Char) : List Char → List Char
  | [] => []
  | c :: cs =>
    if isPrefixCI (p :: ps) (c :: cs) then
      rep ++ replaceCIGo p ps rep (cs.drop ps.length)
    else c :: replaceCIGo p ps rep cs
termination_by l => l.length
decreasing_by
  · simp [List.length_drop]; omega
  · simp

/-- One global, case-insensitive fixed-string replace. -/
def replaceAllCI (pat rep : String) (l : List Char) : List Char :=
  match pat.toList with
  | [] => l
  | p :: ps => replaceCIGo p ps rep.toList l

/-- After `<br`: spaces, an optional slash, and the closing bracket
(the `<br\s*\/?>` pattern); the rest of the input on a match. -/
def brTail : List Char → Option (List Char)
  | [] => none
  | c :: cs =>
    if c == ' ' || c == '\t' || c == '\n' || c == '\r' then brTail cs
    else if c == '/' then
      match cs with
      | '>' :: rest => some rest
      | _ => none
    else if c == '>' then some cs
    else none

/-- Match a `<br\s*\/?>` tag at the head of the input. -/
def matchBr : List Char → Option (List Char)
  | '<' :: b :: r :: rest =>
    if b.toLower == 'b' && r.toLower == 'r' then brTail rest else none
  | _ => none

/-- The block-tag replacements of `stripHtml` (`<br...>`, `</p>`, `</div>`,
`</li>`, `<li>`), applied in one left-to-right scan; the patterns are
disjoint and their replacements create no new tags, so the scan equals the
source's chain of global replaces.  `fuel` bounds the scan by the input
length (each step consumes at least one character). -/
def pass1Go : Nat → List Char → List Char
  | 0, l => l
  | _ + 1, [] => []
  | fuel + 1, c :: cs =>
    match matchBr (c :: cs) with
    | some rest => '\n' :: pass1Go fuel rest
    | none =>
      if isPrefixCI "</p>".toList (c :: cs) then
        '\n' :: '\n' :: pass1Go fuel ((c :: cs).drop 4)
      else if isPrefixCI "</div>".toList (c :: cs) then
        '\n' :: pass1Go fuel ((c :: cs).drop 6)
      else if isPrefixCI "</li>".toList (c :: cs) then
        '\n' :: pass1Go fuel ((c :: cs).drop 5)
      else if isPrefixCI "<li>".toList (c :: cs) then
        '-' :: ' ' :: pass1Go fuel ((c :: cs).drop 4)
      else c :: pass1Go fuel cs

/-- The input after the first unescaped `>`, for the `<[^>]+>` removal. -/
def scanTagAfter : List Char → Option (List Char)
  | [] => none
  | '>' :: rest => some rest
  | _ :: cs => scanTagAfter cs

/-- Remove every remaining `<[^>]+>` tag (at least one character between
the brackets, ending at the first closing bracket). -/
def stripTagsGo : Nat → List Char → List Char
  | 0, l => l
  | _ + 1, [] => []
  | fuel + 1, c :: cs =>
    if c == '<' then
      match cs with
      | '>' :: _ => c :: stripTagsGo fuel cs
      | _ =>
        match scanTagAfter cs with
        | some rest => stripTagsGo fuel rest
        | none => c :: stripTagsGo fuel cs
    else c :: stripTagsGo fuel cs

/-- Collapse runs of three or more line breaks to two (`\n{3,}` →
`\n\n`). -/
def collapseNewlines : List Char → List Char
  | '\n' :: '\n' :: '\n' :: rest => collapseNewlines ('\n' :: '\n' :: rest)
  | c :: cs => c :: collapseNewlines cs
  | [] => []
termination_by l => l.length
decreasing_by
  · simp
  · simp

/-- `stripHtml`: block tags to line breaks and bullets, entities decoded,
remaining tags stripped, blank runs collapsed, surrounding whitespace
trimmed. -/
def stripHtml (html : String) : String :=
  if html = "" then ""
  else
    let a := pass1Go html.length html.toList
    let b := replaceAllCI "&nbsp;" " " a
    let b := replaceAllCI "&amp;" "&" b
    let b := replaceAllCI "&lt;" "<" b
    let b := replaceAllCI "&gt;" ">" b
    let b := replaceAllCI "&quot;" "\"" b
    let c := stripTagsGo b.length b
    (String.mk (collapseNewlines c)).trim

/-- Dropping a while-matching head never lengthens a list. -/
theorem dropWhile_length_le {α : Type} (p : α → Bool) :
    ∀ l : List α, (l.dropWhile p).length ≤ l.length
  | [] => by simp [List.dropWhile]
  | a :: l => by
    by_cases h : p a
    · simp only [List.dropWhile, h]
      exact Nat.le_succ_of_le (dropWhile_length_le p l)
    · simp [List.dropWhile, h]

/-- Lower-kebab-case a type name: lowercase, whitespace runs to one dash
(`type.toLowerCase().replace(/\s+/g, '-')`). -/
def kebabGo : List Char → List Char
  | [] => []
  | c :: cs =>
    if c.isWhitespace then '-' :: kebabGo (cs.dropWhile Char.isWhitespace)
    else c :: kebabGo cs
termination_by l => l.length
decreasing_by
  · have h := dropWhile_length_le Char.isWhitespace cs
    simp; omega
  · simp

/-- The static type-to-id-prefix table, unknown types lower-kebab-cased. -/
def getTypePrefix (t : String) : String :=
  if t = "Epic" then "epic"
  else if t = "Feature" then "feat"
  else if t = "Product Backlog Item" then "pbi"
  else if t = "User Story" then "story"
  else if t = "Task" then "task"
  else if t = "Bug" then "bug"
  else if t = "Issue" then "issue"
  else String.mk (kebabGo t.toLower.toList)

/-- `generateLocalId`: the type's id-prefix, a dash, the remote id. -/
def generateLocalId (t : String) (adoId : Int) : String :=
  getTypePrefix t ++ "-" ++ toString adoId

/-- JS truthiness of an optional number (zero is falsy). -/
def truthyInt : Option Int → Option Int
  | none => none
  | some n => if n = 0 then none else some n

/-- JS truthiness of an optional string (the empty string is falsy). -/
def truthyStr : Option String → Option String
  | none => none
  | some s => if s = "" then none else some s

/-- `transformAdoToYaml`: a remote response as a local item — each field
set only when the response's field is truthy, HTML-bearing fields passed
through `stripHtml`, the import tags split on `;` with trimming, and the
extracted metadata attached as `_ado`. -/
def transformAdoToYaml (adoItem : AdoWorkItemResponse) (cfg : ResolvedConfig)
    (nowIso : String) : WorkItemData :=
  let fields := adoItem.fields
  { type := fields.workItemType,
    id := generateLocalId fields.workItemType adoItem.id,
    title := fields.title,
    description := (truthyStr fields.description).map stripHtml,
    state := truthyStr (some fields.state),
    priority := truthyInt fields.priority,
    tags := (truthyStr fields.tags).map (fun s =>
      ((s.splitOn ";").map String.trim).filter (fun t => t ≠ "")),
    assignedTo := fields.assignedTo.map (fun a =>
      if a.displayName = "" then a.uniqueName else a.displayName),
    areaPath := truthyStr (some fields.areaPath),
    iterationPath := truthyStr (some fields.iterationPath),
    valueArea := truthyStr fields.valueArea,
    businessValue := truthyInt fields.businessValue,
    targetDate := truthyStr fields.targetDate,
    acceptanceCriteria := (truthyStr fields.acceptanceCriteria).map stripHtml,
    effort := truthyInt fields.effort,
    storyPoints := truthyInt fields.storyPoints,
    activity := truthyStr fields.activity,
    remainingWork := truthyInt fields.remainingWork,
    originalEstimate := truthyInt fields.originalEstimate,
    completedWork := truthyInt fields.completedWork,
    ado := some (extractAdoMetadata adoItem cfg.project
      cfg.organization nowIso).toAdoMetadata }

/-- `shouldIncludeItem`: no filters includes everything; a type filter must
match exactly; a tag filter must match one of the item's tags
case-insensitively. -/
def shouldIncludeItem (d : WorkItemData) (filterTag filterType : Option String) :
    Bool :=
  let typeOk := match filterType with
    | some ft => decide (d.type = ft)
    | none => true
  let tagOk := match filterTag with
    | some tag => (d.tags.getD []).any (fun t => t.toLower == tag.toLower)
    | none => true
  match filterTag, filterType with
  | none, none => true
  | _, _ => typeOk && tagOk

/-- A per-item import outcome. -/
structure ImportResult where
  adoId : Int
  localId : String
  type : String
  title : String
  success : Bool
  error : Option String := none
  childCount : Int := 0
deriving DecidableEq

/-- The remote service as import sees it. -/
structure ImportEnv where
  fetch : Int → Except String AdoWorkItemResponse
  comments : Int → Except String (List AdoComment)
  prs : AdoWorkItemResponse → Except String (List AdoPullRequest)
  nowIso : String

/-- The traversal context threaded through `fetchWorkItemTree`. -/
structure ImportContext where
  includeComments : Bool := true
  includePRs : Bool := true
  maxDepth : Nat := 10
  filterTag : Option String := none
  filterType : Option String := none
  currentDepth : Nat := 0
  isRoot : Bool := false
  filterDisabled : Bool := false
deriving DecidableEq

/-- The comment/pull-request enrichment of a fetched item: when enabled
and the fetch succeeds with a nonempty list, attach it into the item's
metadata; fetch errors are swallowed (best-effort enrichment). -/
def enrichWorkItem (env : ImportEnv) (includeComments includePRs : Bool)
    (workItemId : Int) (adoItem : AdoWorkItemResponse)
    (base0 : WorkItemData) : WorkItemData :=
  let base1 := if includeComments then
      match env.comments workItemId with
      | .ok cs =>
        if cs.length > 0 then
          { base0 with ado := base0.ado.map (fun m =>
              { m with comments := some cs }) }
        else base0
      | .error _ => base0
    else base0
  if includePRs then
    match env.prs adoItem with
    | .ok ps =>
      if ps.length > 0 then
        { base1 with ado := base1.ado.map (fun m =>
            { m with linkedPRs := some ps }) }
      else base1
    | .error _ => base1
  else base1

mutual

/-- `fetchWorkItemTree`: recursively fetch a work item and its children,
with the depth ceiling; the tag/type filters apply only at the root level
(children of a filtering root recurse with filtering disabled); per-item
failures record a failed result and yield no subtree.  Returns the
(optional) subtree and the flat result log in visit order. -/
def fetchWorkItemTree (env : ImportEnv) (cfg : ResolvedConfig)
    (workItemId : Int) (ctx : ImportContext) :
    Option WorkItem × List ImportResult :=
  if _h : ctx.currentDepth > ctx.maxDepth then (none, [])
  else
    match env.fetch workItemId with
    | .error msg =>
      (none, [{ adoId := workItemId,
                localId := "ado-" ++ toString workItemId,
                type := "Unknown", title := "Failed to fetch",
                success := false, error := some msg, childCount := 0 }])
    | .ok adoItem =>
      let hasFilters := ctx.filterTag.isSome || ctx.filterType.isSome
      let shouldApplyFilter := hasFilters && !ctx.filterDisabled && ctx.isRoot
      let base2 := enrichWorkItem env ctx.includeComments ctx.includePRs
        workItemId adoItem (transformAdoToYaml adoItem cfg env.nowIso)
      let childIds := getChildIds adoItem
      let res : ImportResult :=
        { adoId := workItemId, localId := base2.id, type := base2.type,
          title := base2.title, success := true,
          childCount := Int.ofNat childIds.length }
      let childCtx := { ctx with
        currentDepth := ctx.currentDepth + 1, isRoot := false,
        filterDisabled := if shouldApplyFilter then true else ctx.filterDisabled }
      let cr := fetchChildren env cfg childCtx shouldApplyFilter
        ctx.filterTag ctx.filterType childIds
      (some (WorkItem.node base2 cr.1), res :: cr.2)
termination_by (ctx.maxDepth + 1 - ctx.currentDepth, 0)

/-- The loop over a node's child ids: fetch each child's subtree; when the
parent applies the filters, a fetched child is kept only when it matches —
its result log is kept either way. -/
def fetchChildren (env : ImportEnv) (cfg : ResolvedConfig)
    (childCtx : ImportContext) (applyFilter : Bool)
    (filterTag filterType : Option String) :
    List Int → List WorkItem × List ImportResult
  | [] => ([], [])
  | cid :: cids =>
    let cres := fetchWorkItemTree env cfg cid childCtx
    let rest := fetchChildren env cfg childCtx applyFilter filterTag
      filterType cids
    match cres.1 with
    | some c =>
      if applyFilter then
        if shouldIncludeItem c.data filterTag filterType then
          (c :: rest.1, cres.2 ++ rest.2)
        else (rest.1, cres.2 ++ rest.2)
      else (c :: rest.1, cres.2 ++ rest.2)
    | none => (rest.1, cres.2 ++ rest.2)
termination_by ids => (childCtx.maxDepth + 1 - childCtx.currentDepth, ids.length + 1)

end

mutual

/-- The types present in a subtree (`collectTypes`, membership only). -/
def collectTypes : WorkItem → List String
  | .node d c => d.type :: collectTypesList c

/-- The types present in a forest. -/
def collectTypesList : List WorkItem → List String
  | [] => []
  | x :: xs => collectTypes x ++ collectTypesList xs

end

/-- `detectHierarchyType` from the type set of the imported tree. -/
def detectHierarchyType (root : WorkItem) : String :=
  let types := collectTypes root
  let hasEpic := types.contains "Epic"
  let hasFeature := types.contains "Feature"
  let hasPBI := types.contains "Product Backlog Item" ||
    types.contains "User Story"
  if hasEpic && hasFeature && hasPBI then "full"
  else if hasFeature && hasPBI then "medium"
  else "simple"

/-- Import options (`ImportOptions`), with the source's defaults. -/
structure ImportOptions where
  includeComments : Bool := true
  includePRs : Bool := true
  maxDepth : Nat := 10
  filterTag : Option String := none
  filterType : Option String := none
deriving DecidableEq

/-- `importFromAdo`: fetch the tree from the given root (the only level
where the filters apply), fail when the root could not be fetched, detect
the hierarchy type, and assemble the document. -/
def importFromAdo (env : ImportEnv) (cfg : ResolvedConfig) (parentId : Int)
    (options : ImportOptions) :
    Except String (WorkItemsDocument × List ImportResult) :=
  let r := fetchWorkItemTree env cfg parentId
    { includeComments := options.includeComments,
      includePRs := options.includePRs,
      maxDepth := options.maxDepth,
      filterTag := options.filterTag,
      filterType := options.filterType,
      currentDepth := 0, isRoot := true }
  match r.1 with
  | none => .error ("Could not fetch work item " ++ toString parentId)
  | some tree =>
    .ok ({ schemaVersion := "1.0",
           hierarchyType := detectHierarchyType tree,
           project := { organization := cfg.organization,
                        project := cfg.project },
           workItems := [tree] }, r.2)

/-! ## Concrete instances used by witnesses and counterexamples -/

/-- A configuration for the concrete runs. -/
def sampleCfg : ResolvedConfig :=
  { organization := "org", project := "proj" }

/-- A fresh local item with no sync metadata. -/
def newItemData : WorkItemData :=
  { type := "Product Backlog Item", id := "pbi-001", title := "New PBI" }

/-- A document holding the one fresh item. -/
def pushDocNew : WorkItemsDocument :=
  { schemaVersion := "1.0", hierarchyType := "simple",
    project := { organization := "org", project := "proj" },
    workItems := [WorkItem.node newItemData []] }

/-- The remote record the sample service answers with. -/
def respNew : AdoWorkItemResponse :=
  { id := 123, rev := 1,
    fields := { title := "New PBI", state := "New",
                workItemType := "Product Backlog Item" } }

/-- A push service where every request succeeds. -/
def pushEnvOk : PushEnv :=
  { fetch := fun _ => .ok respNew,
    createResp := fun _ _ => .ok respNew,
    updateResp := fun _ _ => .ok respNew,
    linkResp := fun _ _ => .ok respNew,
    nowIso := "2025-01-01T00:00:00Z" }

/-- A local item that records remote id 7 at revision 3. -/
def updItemData : WorkItemData :=
  { type := "Product Backlog Item", id := "pbi-002", title := "Title",
    ado := some { workItemId := some 7, rev := some 3 } }

/-- The flattened entry of that item. -/
def updEntry : PushEntry :=
  { item := WorkItem.node updItemData [], parentIdx := none, depth := 0 }

/-- An update decision as `determineSyncAction` issues it. -/
def updDecision : SyncDecision :=
  { action := .update, reason := "Local changes detected" }

/-- Repeated throttle calls on one limiter constructed at time `now`, all
issued at that same instant: the final state and the per-call slept
durations. -/
def throttleCalls (cfg : RateLimiterOptions) (now : Nat) :
    Nat → RateLimiterState × List (Option Nat)
  | 0 => ({ requestCount := 0, windowStart := now }, [])
  | n + 1 =>
    let r := throttleCalls cfg now n
    let step := throttle cfg r.1 now
    (step.1, r.2 ++ [step.2])

/-- A response sequence that answers the first two attempts with "too many
requests" (no retry-after header) and the third with success. -/
def cexResponses : List HttpResponse :=
  [HttpResponse.tooManyRequests none, HttpResponse.tooManyRequests none,
   HttpResponse.ok respNew]

/-- Relation url of a remote child. -/
def childUrl (n : Int) : String :=
  "https://dev.azure.com/org/_apis/wit/workItems/" ++ toString n

/-- The sample import root: a Feature `1` with children `2` and `3`. -/
def importRootResp : AdoWorkItemResponse :=
  { id := 1, rev := 1,
    fields := { title := "Root", state := "New", workItemType := "Feature" },
    relations := some [{ rel := CHILD_LINK, url := childUrl 2 },
                       { rel := CHILD_LINK, url := childUrl 3 }] }

/-- The import sample: the root Feature `1` with children `2` (tagged
frontend, one Task child `4`) and `3` (tagged backend). -/
def importStore : Int → Except String AdoWorkItemResponse := fun i =>
  if i = 1 then .ok importRootResp
  else if i = 2 then .ok
    { id := 2, rev := 1,
      fields := { title := "Front", state := "New",
                  workItemType := "Product Backlog Item",
                  tags := some "frontend" },
      relations := some [{ rel := CHILD_LINK, url := childUrl 4 }] }
  else if i = 3 then .ok
    { id := 3, rev := 1,
      fields := { title := "Back", state := "New",
                  workItemType := "Product Backlog Item",
                  tags := some "backend" } }
  else if i = 4 then .ok
    { id := 4, rev := 1,
      fields := { title := "Task", state := "To Do",
                  workItemType := "Task" } }
  else .error "not found"

/-- The import service over that store, comments and pull requests empty. -/
def importEnvSample : ImportEnv :=
  { fetch := importStore,
    comments := fun _ => .ok [],
    prs := fun _ => .ok [],
    nowIso := "2025-01-01T00:00:00Z" }

/-- The root context of an import with a tag filter. -/
def rootCtxOf (ft fty : Option String) : ImportContext :=
  { includeComments := true, includePRs := true, maxDepth := 10,
    filterTag := ft, filterType := fty, currentDepth := 0,
    isRoot := true, filterDisabled := false }

/-- The context the direct children of a filtering root are fetched in. -/
def childCtxDisabled (ft fty : Option String) : ImportContext :=
  { includeComments := true, includePRs := true, maxDepth := 10,
    filterTag := ft, filterType := fty, currentDepth := 1,
    isRoot := false, filterDisabled := true }

/-- The context of a non-root fetch with its filter data blanked: since
the filters only ever act at the root level, a non-root fetch behaves as
if none were supplied (proved below). -/
def normalizeCtx (ctx : ImportContext) : ImportContext :=
  { includeComments := ctx.includeComments, includePRs := ctx.includePRs,
    maxDepth := ctx.maxDepth, filterTag := none, filterType := none,
    currentDepth := ctx.currentDepth, isRoot := false,
    filterDisabled := false }

/-! ## Specification-side ordering properties (for the hierarchy claims) -/

/-- Every entry's parent is the surrounding context or an entry strictly
earlier in the list. -/
def EntryParentEarlier (L : List FlatEntry) (ctx : Option FlatEntry) : Prop :=
  ∀ pre e suf, L = pre ++ e :: suf →
    e.parent = ctx ∨ ∃ q, e.parent = some q ∧ q ∈ pre

/-- Depth values are correct: a root entry has depth 0 and a child entry
its parent's depth plus one. -/
def EntryDepthOk (L : List FlatEntry) : Prop :=
  ∀ e ∈ L, (∀ q, e.parent = some q → e.depth = q.depth + 1) ∧
    (e.parent = none → e.depth = 0)

/-- Each child of each entry's node appears strictly later, as an entry
whose parent is that entry. -/
def ChildrenAfterHolds (L : List FlatEntry) : Prop :=
  ∀ pre e suf, L = pre ++ e :: suf →
    ∀ c ∈ e.item.children, ∃ e', e' ∈ suf ∧ e'.item = c ∧ e'.parent = some e

/-- Each child of each entry's node appears strictly earlier, as an entry
whose parent is that entry. -/
def ChildrenBeforeHolds (L : List FlatEntry) : Prop :=
  ∀ pre e suf, L = pre ++ e :: suf →
    ∀ c ∈ e.item.children, ∃ e', e' ∈ pre ∧ e'.item = c ∧ e'.parent = some e

/-! ## Helper lemmas -/

/-- Induction over forests of work items. -/
theorem forestInduction {P : List WorkItem → Prop}
    (h0 : P []) (h1 : ∀ d c xs, P c → P xs → P (WorkItem.node d c :: xs)) :
    ∀ l, P l
  | [] => h0
  | WorkItem.node d c :: xs =>
    h1 d c xs (forestInduction h0 h1 c) (forestInduction h0 h1 xs)

/-- The changes list of a diff against a present record, as the source
computes it. -/
theorem diffWorkItem_some_changes (li : WorkItemData) (a : AdoWorkItemResponse) :
    (diffWorkItem li (some a)).changes = COMPARE_FIELDS.filterMap (fun f =>
      let lv := localFieldValue li f
      let av := getAdoFieldValue a f
      if isEqual lv av then none
      else some { field := f, localValue := lv, adoValue := av }) := rfl

/-- The status of a diff against a present record, in terms of its own
changes list. -/
theorem diffWorkItem_some_status (li : WorkItemData) (a : AdoWorkItemResponse) :
    (diffWorkItem li (some a)).status =
      (if (diffWorkItem li (some a)).changes.length > 0 then
        match recordedRevision li.ado with
        | some r => if a.rev > r then DiffStatus.conflict else DiffStatus.modified
        | none => DiffStatus.modified
      else DiffStatus.unchanged) := rfl

/-- A new-item diff carries status `new`. -/
theorem diffWorkItem_none_status (li : WorkItemData) :
    (diffWorkItem li none).status = DiffStatus.new := rfl

/-! ## Claim theorems -/

/-- C10: for every local item and every remote-record-or-absent input the
diff status is `new`, `modified`, `conflict` or `unchanged` — never
`deleted` — and hence `getDiffSummary` over any list of `diffWorkItem`
outputs reports zero deleted items. -/
theorem diff_status_never_deleted :
    (∀ (localItem : WorkItemData) (ado : Option AdoWorkItemResponse),
      (diffWorkItem localItem ado).status ≠ DiffStatus.deleted) ∧
    (∀ pairs : List (WorkItemData × Option AdoWorkItemResponse),
      (getDiffSummary (pairs.map (fun p => diffWorkItem p.1 p.2))).deleted = 0) := by
  have hne : ∀ (localItem : WorkItemData) (ado : Option AdoWorkItemResponse),
      (diffWorkItem localItem ado).status ≠ DiffStatus.deleted := by
    intro li ado
    cases ado with
    | none => rw [diffWorkItem_none_status]; intro h; cases h
    | some a =>
      rw [diffWorkItem_some_status]
      split
      · cases hr : recordedRevision li.ado with
        | none => simp
        | some r => simp only []; split <;> simp
      · simp
  refine ⟨hne, fun pairs => ?_⟩
  have : ((pairs.map (fun p => diffWorkItem p.1 p.2)).filter
      (fun d => decide (d.status = DiffStatus.deleted))) = [] := by
    rw [List.filter_eq_nil_iff]
    intro d hd
    rcases List.mem_map.mp hd with ⟨p, _, rfl⟩
    simpa using hne p.1 p.2
  simp [getDiffSummary, this]

/-- C2: against a present remote record, the diff status is `conflict`
exactly when at least one compared field differs and the item records a
(truthy) prior revision strictly below the remote's; with differences but
without that revision condition the status is `modified`; and with no
differences it is `unchanged`, whatever the revisions. -/
theorem diff_conflict_characterisation :
    ∀ (li : WorkItemData) (a : AdoWorkItemResponse),
      ((diffWorkItem li (some a)).status = DiffStatus.conflict ↔
        (diffWorkItem li (some a)).changes ≠ [] ∧
        ∃ r, recordedRevision li.ado = some r ∧ a.rev > r) ∧
      ((diffWorkItem li (some a)).changes ≠ [] →
        (∀ r, recordedRevision li.ado = some r → ¬(a.rev > r)) →
        (diffWorkItem li (some a)).status = DiffStatus.modified) ∧
      ((diffWorkItem li (some a)).changes = [] →
        (diffWorkItem li (some a)).status = DiffStatus.unchanged) := by
  intro li a
  by_cases hc : (diffWorkItem li (some a)).changes = []
  · have hs : (diffWorkItem li (some a)).status = DiffStatus.unchanged := by
      rw [diffWorkItem_some_status, hc]; simp
    refine ⟨?_, fun hne _ => absurd hc hne, fun _ => hs⟩
    rw [hs]
    constructor
    · intro h; cases h
    · rintro ⟨hne, _⟩; exact absurd hc hne
  · have hlen : 0 < (diffWorkItem li (some a)).changes.length :=
      List.length_pos.mpr hc
    have hs0 := diffWorkItem_some_status li a
    rw [if_pos hlen] at hs0
    rcases hr : recordedRevision li.ado with _ | r
    · rw [hr] at hs0
      have hs : (diffWorkItem li (some a)).status = DiffStatus.modified := hs0
      refine ⟨?_, fun _ _ => hs, fun h => absurd h hc⟩
      rw [hs]
      constructor
      · intro h; cases h
      · rintro ⟨_, r, hr', _⟩
        simp at hr'
    · rw [hr] at hs0
      have hs : (diffWorkItem li (some a)).status =
          (if a.rev > r then DiffStatus.conflict else DiffStatus.modified) := hs0
      by_cases hgt : a.rev > r
      · have hs' : (diffWorkItem li (some a)).status = DiffStatus.conflict := by
          rw [hs, if_pos hgt]
        refine ⟨⟨fun _ => ⟨hc, r, rfl, hgt⟩, fun _ => hs'⟩,
          fun _ hno => absurd hgt (hno r rfl), fun h => absurd h hc⟩
      · have hs' : (diffWorkItem li (some a)).status = DiffStatus.modified := by
          rw [hs, if_neg hgt]
        refine ⟨?_, fun _ _ => hs', fun h => absurd h hc⟩
        rw [hs']
        constructor
        · intro h; cases h
        · rintro ⟨_, r', hr', hgt'⟩
          injection hr' with hrr
          subst hrr
          exact absurd hgt' hgt

/-- C3: the push decision follows the spec's case analysis exactly: no
(truthy) recorded id gives `create` (or `skip` in update-only mode); a
recorded id in create-only mode gives `skip`; a failed fetch gives
`create` (or `skip` in update-only mode); an unforced fetch whose revision
strictly exceeds the (truthy) recorded revision gives `conflict` carrying
both revisions; otherwise `update` exactly when the diff engine reports a
change, else `skip`. -/
theorem determineSyncAction_cases :
    ∀ (item : WorkItemData) (fetched : Option AdoWorkItemResponse)
      (options : PushOptions),
      (truthyWorkItemId item.ado = none →
        (determineSyncAction item fetched options).action =
          (if options.updateOnly then SyncAction.skip else SyncAction.create)) ∧
      (truthyWorkItemId item.ado ≠ none → options.createOnly = true →
        (determineSyncAction item fetched options).action = SyncAction.skip) ∧
      (truthyWorkItemId item.ado ≠ none → options.createOnly = false →
        fetched = none →
        (determineSyncAction item fetched options).action =
          (if options.updateOnly then SyncAction.skip else SyncAction.create)) ∧
      (∀ adoId a r, truthyWorkItemId item.ado = some adoId →
        options.createOnly = false → fetched = some a →
        options.force = false → recordedRevision item.ado = some r →
        a.rev > r →
        (determineSyncAction item fetched options).action = SyncAction.conflict ∧
        (determineSyncAction item fetched options).conflict = some
          { localId := item.id, adoId := adoId, field := "revision",
            localValue := r, adoValue := a.rev,
            adoModifiedAt := a.fields.changedDate,
            localSyncedAt :=
              (item.ado.bind (fun m => m.lastSyncedAt)).getD "unknown" }) ∧
      (∀ adoId a, truthyWorkItemId item.ado = some adoId →
        options.createOnly = false → fetched = some a →
        ¬(options.force = false ∧ ∃ r, recordedRevision item.ado = some r ∧ a.rev > r) →
        (determineSyncAction item fetched options).action =
          (if hasLocalChanges item a then SyncAction.update else SyncAction.skip)) := by
  intro item fetched options
  refine ⟨?_, ?_, ?_, ?_, ?_⟩
  · intro h
    simp only [determineSyncAction, h]
    split <;> rfl
  · intro h hco
    cases hid : truthyWorkItemId item.ado with
    | none => exact absurd hid h
    | some adoId => simp [determineSyncAction, hid, hco]
  · intro h hco hf
    cases hid : truthyWorkItemId item.ado with
    | none => exact absurd hid h
    | some adoId =>
      simp only [determineSyncAction, hid, hco, hf, Bool.false_eq_true, if_false]
      split <;> rfl
  · intro adoId a r hid hco hf hforce hr hgt
    simp only [determineSyncAction, hid, hco, hf, hforce, hr,
      Bool.false_eq_true, if_false]
    rw [if_pos hgt]
    exact ⟨rfl, rfl⟩
  · intro adoId a hid hco hf hno
    have hLC : determineSyncAction item fetched options =
        (if hasLocalChanges item a then
          ({ action := .update, reason := "Local changes detected" } : SyncDecision)
        else { action := .skip, reason := "No changes" }) := by
      simp only [determineSyncAction, hid, hco, hf]
      rcases hforce : options.force with _ | _
      · rcases hr : recordedRevision item.ado with _ | r
        · simp [hforce, hr]
        · have hngt : ¬(a.rev > r) := fun hgt => hno ⟨hforce, r, hr, hgt⟩
          simp [hforce, hr, hngt]
      · simp [hforce]
    rw [hLC]
    split <;> simp_all

/-- C4: an `update` executed on an item whose metadata records revision r
sends a patch document that begins with a `test` operation on `/rev` with
value r — the update request is exactly the revision-conditioned patch,
never an unconditioned one. -/
theorem update_patch_tests_revision :
    ∀ (env : PushEnv) (cfg : ResolvedConfig) (entry : PushEntry)
      (parentMeta : Option AdoMetadata) (decision : SyncDecision) (r : Int),
      decision.action = SyncAction.update →
      entry.item.data.ado.bind (fun m => m.rev) = some r →
      (updateWorkItemPatch entry.item.data (some r) =
        { op := "test", path := "/rev", value := some (.num r) } ::
          buildPatchDocument entry.item.data) ∧
      executeAction env cfg entry parentMeta decision =
        (match env.updateResp ((truthyWorkItemId entry.item.data.ado).getD 0)
            ({ op := "test", path := "/rev", value := some (.num r) } ::
              buildPatchDocument entry.item.data) with
         | .error e => .error e
         | .ok _ => .ok
            { localId := entry.item.data.id, action := .update, success := true,
              workItemId := some ((truthyWorkItemId entry.item.data.ado).getD 0),
              url := some (itemUrl cfg.organization cfg.project
                ((truthyWorkItemId entry.item.data.ado).getD 0)),
              message := some ("Updated work item #" ++
                toString ((truthyWorkItemId entry.item.data.ado).getD 0)) }) := by
  intro env cfg entry parentMeta decision r hact hrev
  refine ⟨rfl, ?_⟩
  obtain ⟨act, reason, conf⟩ := decision
  have hact' : act = SyncAction.update := hact
  subst hact'
  simp only [executeAction, updateWorkItem, updateWorkItemPatch, hrev]

/-- C4 witness: the conditioned update patch at the concrete item that
records revision 3. -/
theorem update_patch_tests_revision_witness :
    (updateWorkItemPatch updEntry.item.data (some 3) =
      { op := "test", path := "/rev", value := some (.num 3) } ::
        buildPatchDocument updEntry.item.data) ∧
    executeAction pushEnvOk sampleCfg updEntry none updDecision =
      (match pushEnvOk.updateResp ((truthyWorkItemId updEntry.item.data.ado).getD 0)
          ({ op := "test", path := "/rev", value := some (.num 3) } ::
            buildPatchDocument updEntry.item.data) with
       | .error e => .error e
       | .ok _ => .ok
          { localId := updEntry.item.data.id, action := .update, success := true,
            workItemId := some ((truthyWorkItemId updEntry.item.data.ado).getD 0),
            url := some (itemUrl sampleCfg.organization sampleCfg.project
              ((truthyWorkItemId updEntry.item.data.ado).getD 0)),
            message := some ("Updated work item #" ++
              toString ((truthyWorkItemId updEntry.item.data.ado).getD 0)) }) :=
  update_patch_tests_revision pushEnvOk sampleCfg updEntry none updDecision 3 rfl rfl

/-- C6: the rate limiter resets on window expiry before counting; with an
allowance of 10 the ninth call inside one window suspends (for the window
remainder) and ends with the counter at 1, the first eight calls not
suspending; after any expired window a throttle ends with the counter at
1; and after any throttle the counter never exceeds 80% of the allowance
(allowances for which 80% is integral). -/
theorem rateLimiter_throttle_spec :
    ((throttleCalls { maxRequestsPerMinute := 10, windowMs := 60000 } 0 8).2 =
      [none, none, none, none, none, none, none, none] ∧
     (throttleCalls { maxRequestsPerMinute := 10, windowMs := 60000 } 0 8).1 =
      { requestCount := 8, windowStart := 0 } ∧
     (throttleCalls { maxRequestsPerMinute := 10, windowMs := 60000 } 0 9).2 =
      [none, none, none, none, none, none, none, none, some 60000] ∧
     (throttleCalls { maxRequestsPerMinute := 10, windowMs := 60000 } 0 9).1 =
      { requestCount := 1, windowStart := 60000 }) ∧
    (∀ (cfg : RateLimiterOptions) (s : RateLimiterState) (now : Nat),
      now - s.windowStart ≥ cfg.windowMs →
      (throttle cfg s now).1.requestCount = 1) ∧
    (∀ (cfg : RateLimiterOptions) (s : RateLimiterState) (now : Nat) (m : Nat),
      cfg.maxRequestsPerMinute = 5 * m → 1 ≤ m →
      5 * (throttle cfg s now).1.requestCount ≤ 4 * cfg.maxRequestsPerMinute) := by
  refine ⟨⟨by decide, by decide, by decide, by decide⟩, ?_, ?_⟩
  · intro cfg s now h
    simp only [throttle, if_pos h]
    split <;> rfl
  · intro cfg s now m hm h1
    simp only [throttle]
    split
    · split
      · simp; omega
      · rename_i hth
        simp at hth ⊢
        omega
    · split
      · simp; omega
      · rename_i hth
        simp at hth ⊢
        omega

/-- C5 counterexample: a request answered 429, whose replay is answered
429 again, is replayed a second time rather than failing — with responses
[429, 429, ok] the client sleeps twice for 60 s and returns the success,
where the claim says the second 429 propagates as a failure. -/
theorem retry_429_counterexample :
    (sendWithRetries {} cexResponses {} 0).1 = Except.ok respNew ∧
    (sendWithRetries {} cexResponses {} 0).2.1 = [60000, 60000] :=
  ⟨rfl, rfl⟩

/-- C5 amended: every "too many requests" response makes the client
suspend for the parsed retry-after delay (60 s when the header is absent,
unparsable or zero), reset the rate limiter, and replay the request
through the same handling — so repeated 429s are replayed without bound;
a success or a non-429 failure returns at once. -/
theorem retry_429_amended :
    (∀ (cfg : RateLimiterOptions) (header : Option String)
       (rest : List HttpResponse) (rl : RateLimiterState) (now : Nat),
      (sendWithRetries cfg (HttpResponse.tooManyRequests header :: rest) rl now).1 =
        (sendWithRetries cfg rest
          { requestCount := 0,
            windowStart := now + (throttle cfg rl now).2.getD 0 +
              parseRetryAfter header * 1000 }
          (now + (throttle cfg rl now).2.getD 0 +
            parseRetryAfter header * 1000)).1 ∧
      (sendWithRetries cfg (HttpResponse.tooManyRequests header :: rest) rl now).2.1 =
        (throttle cfg rl now).2.toList ++ parseRetryAfter header * 1000 ::
          (sendWithRetries cfg rest
            { requestCount := 0,
              windowStart := now + (throttle cfg rl now).2.getD 0 +
                parseRetryAfter header * 1000 }
            (now + (throttle cfg rl now).2.getD 0 +
              parseRetryAfter header * 1000)).2.1) ∧
    (∀ (cfg : RateLimiterOptions) (item : AdoWorkItemResponse)
       (rest : List HttpResponse) (rl : RateLimiterState) (now : Nat),
      (sendWithRetries cfg (HttpResponse.ok item :: rest) rl now).1 =
        Except.ok item ∧
      (sendWithRetries cfg (HttpResponse.ok item :: rest) rl now).2.1 =
        (throttle cfg rl now).2.toList) ∧
    (∀ (cfg : RateLimiterOptions) (msg : String)
       (rest : List HttpResponse) (rl : RateLimiterState) (now : Nat),
      (sendWithRetries cfg (HttpResponse.failed msg :: rest) rl now).1 =
        Except.error msg ∧
      (sendWithRetries cfg (HttpResponse.failed msg :: rest) rl now).2.1 =
        (throttle cfg rl now).2.toList) ∧
    parseRetryAfter none = 60 ∧ parseRetryAfter (some "abc") = 60 ∧
    parseRetryAfter (some "0") = 60 ∧ parseRetryAfter (some "13") = 13 := by
  refine ⟨?_, ?_, ?_, rfl, by decide, by decide, by decide⟩
  · intro cfg header rest rl now
    exact ⟨rfl, rfl⟩
  · intro cfg item rest rl now
    exact ⟨rfl, rfl⟩
  · intro cfg msg rest rl now
    exact ⟨rfl, rfl⟩

/-- C9: pull returns the document unchanged; with no item recording a
remote id the result list is empty; every collected item yields exactly
one result; and an item whose id is missing from the batch response gets a
failed result with the descriptive error while processing continues. -/
theorem pull_missing_items :
    ∀ (env : PullEnv) (doc : WorkItemsDocument) (cfg : ResolvedConfig)
      (opts : PullOptions),
      (pullWorkItems env doc cfg opts).2 = doc ∧
      (((flattenHierarchy doc).filter
          (fun e => (truthyWorkItemId e.item.data.ado).isSome)) = [] →
        (pullWorkItems env doc cfg opts).1 = []) ∧
      (pullWorkItems env doc cfg opts).1.length =
        ((flattenHierarchy doc).filter
          (fun e => (truthyWorkItemId e.item.data.ado).isSome)).length ∧
      (∀ (i : Nat) (e : FlatEntry) (adoId : Int),
        ((flattenHierarchy doc).filter
          (fun e => (truthyWorkItemId e.item.data.ado).isSome))[i]? = some e →
        truthyWorkItemId e.item.data.ado = some adoId →
        mapGetLast (getWorkItemsBatch env
          (((flattenHierarchy doc).filter
            (fun e => (truthyWorkItemId e.item.data.ado).isSome)).map
              (fun e => (truthyWorkItemId e.item.data.ado).getD 0))) adoId = none →
        (pullWorkItems env doc cfg opts).1[i]? = some
          { localId := e.item.data.id, action := SyncAction.skip,
            success := false, workItemId := some adoId,
            error := some "Work item not found in ADO" }) := by
  intro env doc cfg opts
  refine ⟨?_, ?_, ?_, ?_⟩
  · simp only [pullWorkItems]
    split <;> rfl
  · intro h
    have he : ((flattenHierarchy doc).filter
        (fun e => (truthyWorkItemId e.item.data.ado).isSome)).isEmpty = true := by
      rw [h]; rfl
    simp [pullWorkItems, he]
  · by_cases h : ((flattenHierarchy doc).filter
        (fun e => (truthyWorkItemId e.item.data.ado).isSome)).isEmpty
    · have h0 := List.isEmpty_iff.mp h
      simp [pullWorkItems, h, h0]
    · simp [pullWorkItems, h]
  · intro i e adoId hg ht hm
    have hne : ((flattenHierarchy doc).filter
        (fun e => (truthyWorkItemId e.item.data.ado).isSome)).isEmpty = false := by
      cases hl : ((flattenHierarchy doc).filter
          (fun e => (truthyWorkItemId e.item.data.ado).isSome)) with
      | nil => rw [hl] at hg; simp at hg
      | cons x xs => simp [hl]
    simp only [pullWorkItems, hne, Bool.false_eq_true, if_false]
    rw [List.getElem?_map, hg]
    simp only [Option.map_some']
    congr 1
    simp only [pullOne, ht, Option.getD_some, hm]

/-- C1 (code evaluation at the failing input): pushing a document holding
one fresh item succeeds — the service creates remote item 123 and the
re-fetch succeeds — yet the returned document is the input unchanged:
looking the item up still finds no `_ado` metadata.  The refreshed block
(id 123, revision 1, sync time) was written only to the flattened copy,
as the final per-copy map shows. -/
theorem push_leaves_document_stale :
    (pushWorkItems pushEnvOk pushDocNew sampleCfg {}).1 =
      [{ localId := "pbi-001", action := .create, success := true,
         workItemId := some 123,
         url := some "https://dev.azure.com/org/proj/_workitems/edit/123",
         message := some "Created work item #123" }] ∧
    (pushWorkItems pushEnvOk pushDocNew sampleCfg {}).2 = pushDocNew ∧
    (findItemById pushDocNew "pbi-001").map (fun w => w.data.ado) =
      some none ∧
    pushFinalMetas pushEnvOk pushDocNew sampleCfg {} 0 = some
      { workItemId := some 123,
        url := some "https://dev.azure.com/org/proj/_workitems/edit/123",
        rev := some 1, lastSyncedAt := some "2025-01-01T00:00:00Z",
        etag := none, state := some "New", assignedTo := none,
        comments := none, linkedPRs := none, history := none } := by
  have hflat : flattenHierarchyIdx pushDocNew =
      [{ item := WorkItem.node newItemData [], parentIdx := none, depth := 0 }] := by
    simp [flattenHierarchyIdx, flattenIdxGo, pushDocNew]
  have hfind : findItemById pushDocNew "pbi-001" =
      some (WorkItem.node newItemData []) := by
    simp [findItemById, searchById, pushDocNew, newItemData]
  refine ⟨?_, rfl, ?_, ?_⟩
  · simp only [pushWorkItems, hflat]
    rfl
  · rw [hfind]
    rfl
  · simp only [pushFinalMetas, hflat]
    rfl

/-! ## Hierarchy ordering lemmas (C7) -/

/-- Unfolding of `flattenGo` on a cons, in simp-normal form. -/
theorem flattenGo_cons (dta : WorkItemData) (c xs : List WorkItem)
    (p : Option FlatEntry) (d : Nat) :
    flattenGo (WorkItem.node dta c :: xs) p d =
      FlatEntry.mk (WorkItem.node dta c) p d ::
        (flattenGo c (some (FlatEntry.mk (WorkItem.node dta c) p d)) (d + 1) ++
          flattenGo xs p d) := by
  simp [flattenGo]

/-- Unfolding of `flattenReverseGo` on a cons, in simp-normal form. -/
theorem flattenReverseGo_cons (dta : WorkItemData) (c xs : List WorkItem)
    (p : Option FlatEntry) (d : Nat) :
    flattenReverseGo (WorkItem.node dta c :: xs) p d =
      flattenReverseGo c (some (FlatEntry.mk (WorkItem.node dta c) p d)) (d + 1) ++
        (FlatEntry.mk (WorkItem.node dta c) p d :: flattenReverseGo xs p d) := by
  simp [flattenReverseGo]

/-- The items of the flattened list are the canonical pre-order. -/
theorem flattenGo_map_item :
    ∀ (items : List WorkItem) (p : Option FlatEntry) (d : Nat),
      (flattenGo items p d).map FlatEntry.item = preorder items := by
  refine forestInduction ?_ ?_
  · intro p d; simp [flattenGo, preorder]
  · intro dta c xs ihc ihxs p d
    rw [flattenGo_cons]
    simp [preorder, ihc, ihxs, FlatEntry.item]

/-- The items of the reverse-flattened list are the canonical post-order. -/
theorem flattenReverseGo_map_item :
    ∀ (items : List WorkItem) (p : Option FlatEntry) (d : Nat),
      (flattenReverseGo items p d).map FlatEntry.item = postorder items := by
  refine forestInduction ?_ ?_
  · intro p d; simp [flattenReverseGo, postorder]
  · intro dta c xs ihc ihxs p d
    rw [flattenReverseGo_cons]
    simp [postorder, ihc, ihxs, FlatEntry.item]

/-- The pre-order lists each node exactly once: its length is the node
count. -/
theorem preorder_length :
    ∀ items : List WorkItem, (preorder items).length = countItems items := by
  refine forestInduction ?_ ?_
  · simp [preorder, countItems]
  · intro dta c xs ihc ihxs
    simp [preorder, countItems, ihc, ihxs]
    omega

/-- Post-order and pre-order list the same nodes. -/
theorem postorder_perm_preorder :
    ∀ items : List WorkItem, (postorder items).Perm (preorder items) := by
  refine forestInduction ?_ ?_
  · simp [postorder, preorder]
  · intro dta c xs ihc ihxs
    simp only [postorder, preorder]
    have h1 : (postorder c ++ [WorkItem.node dta c]).Perm
        (WorkItem.node dta c :: preorder c) :=
      (ihc.append (List.Perm.refl _)).trans
        (List.perm_append_singleton _ _)
    exact h1.append ihxs

/-- Every member of the input forest heads an entry of its flattening with
the given parent and depth. -/
theorem flattenGo_heads :
    ∀ (items : List WorkItem) (p : Option FlatEntry) (d : Nat),
      ∀ cc ∈ items, ∃ e, e ∈ flattenGo items p d ∧ e.item = cc ∧
        e.parent = p ∧ e.depth = d := by
  intro items
  induction items with
  | nil => intro p d cc hcc; cases hcc
  | cons x xs ih =>
    intro p d cc hcc
    obtain ⟨dta, c⟩ := x
    rcases List.mem_cons.mp hcc with rfl | hcc
    · exact ⟨FlatEntry.mk (WorkItem.node dta c) p d,
        by rw [flattenGo_cons]; exact List.mem_cons_self _ _, rfl, rfl, rfl⟩
    · obtain ⟨e, he, h1, h2, h3⟩ := ih p d cc hcc
      refine ⟨e, ?_, h1, h2, h3⟩
      rw [flattenGo_cons]
      exact List.mem_cons_of_mem _ (List.mem_append.mpr (Or.inr he))

/-- Every member of the input forest heads an entry of its reverse
flattening with the given parent and depth. -/
theorem flattenReverseGo_heads :
    ∀ (items : List WorkItem) (p : Option FlatEntry) (d : Nat),
      ∀ cc ∈ items, ∃ e, e ∈ flattenReverseGo items p d ∧ e.item = cc ∧
        e.parent = p ∧ e.depth = d := by
  intro items
  induction items with
  | nil => intro p d cc hcc; cases hcc
  | cons x xs ih =>
    intro p d cc hcc
    obtain ⟨dta, c⟩ := x
    rcases List.mem_cons.mp hcc with rfl | hcc
    · refine ⟨FlatEntry.mk (WorkItem.node dta c) p d, ?_, rfl, rfl, rfl⟩
      rw [flattenReverseGo_cons]
      exact List.mem_append.mpr (Or.inr (List.mem_cons_self _ _))
    · obtain ⟨e, he, h1, h2, h3⟩ := ih p d cc hcc
      refine ⟨e, ?_, h1, h2, h3⟩
      rw [flattenReverseGo_cons]
      exact List.mem_append.mpr (Or.inr (List.mem_cons_of_mem _ he))

/-- In the flattened list, every entry's parent is the surrounding context
or an earlier entry. -/
theorem flattenGo_parent_earlier :
    ∀ (items : List WorkItem) (p : Option FlatEntry) (d : Nat),
      EntryParentEarlier (flattenGo items p d) p := by
  refine forestInduction ?_ ?_
  · intro p d pre e suf h
    simp [flattenGo] at h
  · intro dta c xs ihc ihxs p d pre e suf h
    rw [flattenGo_cons] at h
    rcases pre with _ | ⟨a, pre'⟩
    · simp only [List.nil_append] at h
      injection h with h1 _
      subst h1
      exact Or.inl rfl
    · simp only [List.cons_append] at h
      injection h with ha h2
      rcases List.append_eq_append_iff.mp h2 with ⟨a', hpre', hB'⟩ | ⟨c', hA', hsuf'⟩
      · rcases ihxs p d a' e suf hB' with hp | ⟨q, hq, hqmem⟩
        · exact Or.inl hp
        · exact Or.inr ⟨q, hq, by
            rw [hpre']
            exact List.mem_cons_of_mem _ (List.mem_append.mpr (Or.inr hqmem))⟩
      · rcases c' with _ | ⟨e'', c''⟩
        · simp only [List.nil_append] at hsuf'
          rcases ihxs p d [] e suf (by simpa using hsuf'.symm) with hp | ⟨q, hq, hqmem⟩
          · exact Or.inl hp
          · exact absurd hqmem (List.not_mem_nil q)
        · injection hsuf' with he'' hsuf''
          subst he''
          rcases ihc (some (FlatEntry.mk (WorkItem.node dta c) p d)) (d + 1)
              pre' e c'' hA' with hp | ⟨q, hq, hqmem⟩
          · exact Or.inr ⟨FlatEntry.mk (WorkItem.node dta c) p d, hp, by
              rw [← ha]; exact List.mem_cons_self _ _⟩
          · exact Or.inr ⟨q, hq, List.mem_cons_of_mem _ hqmem⟩

/-- In the flattened list, depth values are correct relative to the
context's depth. -/
theorem flattenGo_depthOk :
    ∀ (items : List WorkItem) (p : Option FlatEntry) (d : Nat),
      (∀ q, p = some q → d = q.depth + 1) → (p = none → d = 0) →
      EntryDepthOk (flattenGo items p d) := by
  refine forestInduction ?_ ?_
  · intro p d h1 h2 e he
    simp [flattenGo] at he
  · intro dta c xs ihc ihxs p d h1 h2 e he
    rw [flattenGo_cons] at he
    rcases List.mem_cons.mp he with rfl | he
    · exact ⟨fun q hq => h1 q hq, fun hq => h2 hq⟩
    rcases List.mem_append.mp he with he | he
    · refine ihc (some (FlatEntry.mk (WorkItem.node dta c) p d)) (d + 1) ?_ ?_ e he
      · intro q hq
        injection hq with hq'
        subst hq'
        rfl
      · intro hq
        simp at hq
    · exact ihxs p d h1 h2 e he

/-- In the flattened list, each entry's children all appear strictly
later, as entries whose parent is that entry. -/
theorem flattenGo_children_after :
    ∀ (items : List WorkItem) (p : Option FlatEntry) (d : Nat),
      ChildrenAfterHolds (flattenGo items p d) := by
  refine forestInduction ?_ ?_
  · intro p d pre e suf h
    simp [flattenGo] at h
  · intro dta c xs ihc ihxs p d pre e suf h cc hcc
    rw [flattenGo_cons] at h
    rcases pre with _ | ⟨a, pre'⟩
    · simp only [List.nil_append] at h
      injection h with h1 h2
      subst h1
      obtain ⟨e', he', hi, hp, _⟩ := flattenGo_heads c
        (some (FlatEntry.mk (WorkItem.node dta c) p d)) (d + 1) cc hcc
      exact ⟨e', by rw [← h2]; exact List.mem_append.mpr (Or.inl he'), hi, hp⟩
    · simp only [List.cons_append] at h
      injection h with ha h2
      rcases List.append_eq_append_iff.mp h2 with ⟨a', hpre', hB'⟩ | ⟨c', hA', hsuf'⟩
      · exact ihxs p d a' e suf hB' cc hcc
      · rcases c' with _ | ⟨e'', c''⟩
        · simp only [List.nil_append] at hsuf'
          exact ihxs p d [] e suf (by simpa using hsuf'.symm) cc hcc
        · injection hsuf' with he'' hsuf''
          subst he''
          obtain ⟨e', he', hi, hp⟩ := ihc
            (some (FlatEntry.mk (WorkItem.node dta c) p d)) (d + 1)
            pre' e c'' hA' cc hcc
          exact ⟨e', by rw [hsuf'']; exact List.mem_append.mpr (Or.inl he'),
            hi, hp⟩

/-- In the reverse-flattened list, each entry's children all appear
strictly earlier, as entries whose parent is that entry. -/
theorem flattenReverseGo_children_before :
    ∀ (items : List WorkItem) (p : Option FlatEntry) (d : Nat),
      ChildrenBeforeHolds (flattenReverseGo items p d) := by
  refine forestInduction ?_ ?_
  · intro p d pre e suf h
    simp [flattenReverseGo] at h
  · intro dta c xs ihc ihxs p d pre e suf h cc hcc
    rw [flattenReverseGo_cons] at h
    rcases List.append_eq_append_iff.mp h with ⟨a', hpre', hmid⟩ | ⟨c', hA', hmid⟩
    · rcases a' with _ | ⟨e1, a''⟩
      · simp only [List.nil_append] at hmid
        injection hmid with h1 h2
        subst h1
        obtain ⟨e', he', hi, hp, _⟩ := flattenReverseGo_heads c
          (some (FlatEntry.mk (WorkItem.node dta c) p d)) (d + 1) cc hcc
        refine ⟨e', ?_, hi, hp⟩
        rw [hpre']
        simpa using he'
      · injection hmid with h1 h2
        subst h1
        obtain ⟨e', he', hi, hp⟩ := ihxs p d a'' e suf h2 cc hcc
        refine ⟨e', ?_, hi, hp⟩
        rw [hpre']
        exact List.mem_append.mpr (Or.inr (List.mem_cons_of_mem _ he'))
    · rcases c' with _ | ⟨e2, c''⟩
      · simp only [List.nil_append] at hmid
        injection hmid with h1 h2
        subst h1
        obtain ⟨e', he', hi, hp, _⟩ := flattenReverseGo_heads c
          (some (FlatEntry.mk (WorkItem.node dta c) p d)) (d + 1) cc hcc
        refine ⟨e', ?_, hi, hp⟩
        rw [hA'] at he'
        simpa using he'
      · injection hmid with h1 h2
        subst h1
        obtain ⟨e', he', hi, hp⟩ := ihc
          (some (FlatEntry.mk (WorkItem.node dta c) p d)) (d + 1)
          pre e c'' hA' cc hcc
        exact ⟨e', he', hi, hp⟩

/-- C7: flattenHierarchy lists exactly the tree's nodes in pre-order —
its items are the canonical pre-order, whose length is the node count;
every entry's parent is an earlier entry (or absent at the roots), depths
are the parents' plus one (0 at roots), and each entry's children all
appear later with that entry as parent.  flattenHierarchyReverse lists
the same nodes (a permutation) in post-order, each entry's children
appearing strictly before it. -/
theorem flatten_orders (doc : WorkItemsDocument) :
    (flattenHierarchy doc).map FlatEntry.item = preorder doc.workItems ∧
    (flattenHierarchyReverse doc).map FlatEntry.item = postorder doc.workItems ∧
    (postorder doc.workItems).Perm (preorder doc.workItems) ∧
    (preorder doc.workItems).length = countItems doc.workItems ∧
    EntryParentEarlier (flattenHierarchy doc) none ∧
    EntryDepthOk (flattenHierarchy doc) ∧
    ChildrenAfterHolds (flattenHierarchy doc) ∧
    ChildrenBeforeHolds (flattenHierarchyReverse doc) :=
  ⟨flattenGo_map_item doc.workItems none 0,
   flattenReverseGo_map_item doc.workItems none 0,
   postorder_perm_preorder doc.workItems,
   preorder_length doc.workItems,
   flattenGo_parent_earlier doc.workItems none 0,
   flattenGo_depthOk doc.workItems none 0 (fun _ hq => nomatch hq) (fun _ => rfl),
   flattenGo_children_after doc.workItems none 0,
   flattenReverseGo_children_before doc.workItems none 0⟩

/-! ## Import filtering lemmas (C8) -/

/-- Beyond the depth ceiling the fetch yields nothing. -/
theorem fetchWorkItemTree_depth_exceeded (env : ImportEnv)
    (cfg : ResolvedConfig) (id : Int) (ctx : ImportContext)
    (h : ctx.currentDepth > ctx.maxDepth) :
    fetchWorkItemTree env cfg id ctx = (none, []) := by
  rw [fetchWorkItemTree]
  simp [h]

/-- The children list a filtering parent keeps: each child fetched, then
the filter applied to the fetched children only. -/
theorem fetchChildren_filter_true (env : ImportEnv) (cfg : ResolvedConfig)
    (cctx : ImportContext) (ft fty : Option String) :
    ∀ ids : List Int,
      (fetchChildren env cfg cctx true ft fty ids).1 =
        (ids.filterMap (fun cid => (fetchWorkItemTree env cfg cid cctx).1)).filter
          (fun c => shouldIncludeItem c.data ft fty)
  | [] => by simp [fetchChildren]
  | cid :: cids => by
    rw [fetchChildren]
    have ih := fetchChildren_filter_true env cfg cctx ft fty cids
    cases hc : (fetchWorkItemTree env cfg cid cctx).1 with
    | none => simp [hc, ih]
    | some c =>
      by_cases hf : shouldIncludeItem c.data ft fty
      · simp [hc, hf, ih]
      · simp [hc, hf, ih]

/-- Below the root the filter data is never consulted: a non-root fetch
equals the same fetch with the filters blanked (and likewise for the child
loop when it is not filtering).  The fuel bounds the remaining depth. -/
theorem fetch_ignores_filters (env : ImportEnv) (cfg : ResolvedConfig) :
    ∀ fuel : Nat,
      (∀ (ctx : ImportContext) (id : Int), ctx.isRoot = false →
        ctx.maxDepth + 1 - ctx.currentDepth ≤ fuel →
        fetchWorkItemTree env cfg id ctx =
          fetchWorkItemTree env cfg id (normalizeCtx ctx)) ∧
      (∀ (ctx : ImportContext) (ft fty : Option String) (ids : List Int),
        ctx.isRoot = false →
        ctx.maxDepth + 1 - ctx.currentDepth ≤ fuel →
        fetchChildren env cfg ctx false ft fty ids =
          fetchChildren env cfg (normalizeCtx ctx) false none none ids) := by
  intro fuel
  induction fuel with
  | zero =>
    have hT : ∀ (ctx : ImportContext) (id : Int), ctx.isRoot = false →
        ctx.maxDepth + 1 - ctx.currentDepth ≤ 0 →
        fetchWorkItemTree env cfg id ctx =
          fetchWorkItemTree env cfg id (normalizeCtx ctx) := by
      intro ctx id _ hfuel
      have hd : ctx.currentDepth > ctx.maxDepth := by omega
      rw [fetchWorkItemTree_depth_exceeded env cfg id ctx hd,
        fetchWorkItemTree_depth_exceeded env cfg id (normalizeCtx ctx) hd]
    refine ⟨hT, ?_⟩
    intro ctx ft fty ids hroot hfuel
    induction ids with
    | nil => rw [fetchChildren, fetchChildren]
    | cons cid cids ihids =>
      rw [fetchChildren]
      conv_rhs => rw [fetchChildren]
      rw [hT ctx cid hroot hfuel, ihids]
      simp
  | succ n ihn =>
    have hT : ∀ (ctx : ImportContext) (id : Int), ctx.isRoot = false →
        ctx.maxDepth + 1 - ctx.currentDepth ≤ n + 1 →
        fetchWorkItemTree env cfg id ctx =
          fetchWorkItemTree env cfg id (normalizeCtx ctx) := by
      intro ctx id hroot hfuel
      by_cases hd : ctx.currentDepth > ctx.maxDepth
      · rw [fetchWorkItemTree_depth_exceeded env cfg id ctx hd,
          fetchWorkItemTree_depth_exceeded env cfg id (normalizeCtx ctx) hd]
      · rw [fetchWorkItemTree]
        conv_rhs => rw [fetchWorkItemTree]
        simp only [normalizeCtx, hroot, dif_neg hd, Option.isSome_none,
          Bool.or_self, Bool.false_and, Bool.and_false]
        cases hfr : env.fetch id with
        | error msg => rfl
        | ok adoItem =>
          have hfuel2 : ctx.maxDepth + 1 - (ctx.currentDepth + 1) ≤ n := by omega
          have hch := ihn.2
            ⟨ctx.includeComments, ctx.includePRs, ctx.maxDepth, ctx.filterTag,
              ctx.filterType, ctx.currentDepth + 1, false, ctx.filterDisabled⟩
            ctx.filterTag ctx.filterType (getChildIds adoItem) rfl hfuel2
          simp only [normalizeCtx] at hch
          simp only [Bool.false_eq_true, if_false]
          rw [hch]
    refine ⟨hT, ?_⟩
    intro ctx ft fty ids hroot hfuel
    induction ids with
    | nil => rw [fetchChildren, fetchChildren]
    | cons cid cids ihids =>
      rw [fetchChildren]
      conv_rhs => rw [fetchChildren]
      rw [hT ctx cid hroot hfuel, ihids]
      simp

/-- C8: with a tag and/or type filter supplied, the import fetch applies
the filter predicate only to the direct children of the root: the root
subtree is always produced (the root itself is never filtered), and its
children list is exactly the direct children — each fetched with filtering
wholly disabled, so a passing child keeps all its descendants regardless
of their own tags/types — filtered by the predicate, a failing child
discarded with its entire subtree. -/
theorem filtersOnlyDirectChildrenOfRoot :
    ∀ (env : ImportEnv) (cfg : ResolvedConfig) (rootId : Int)
      (r : AdoWorkItemResponse) (ft fty : Option String) (ic ip : Bool)
      (md : Nat),
      env.fetch rootId = Except.ok r →
      (ft.isSome = true ∨ fty.isSome = true) →
      (fetchWorkItemTree env cfg rootId
        ⟨ic, ip, md, ft, fty, 0, true, false⟩).1.isSome = true ∧
      (∀ w, (fetchWorkItemTree env cfg rootId
          ⟨ic, ip, md, ft, fty, 0, true, false⟩).1 = some w →
        w.children = ((getChildIds r).filterMap
            (fun cid => (fetchWorkItemTree env cfg cid
              ⟨ic, ip, md, none, none, 1, false, false⟩).1)).filter
          (fun c => shouldIncludeItem c.data ft fty)) := by
  intro env cfg rootId r ft fty ic ip md hfetch hf
  have hfb : (ft.isSome || fty.isSome) = true := by
    rcases hf with h | h <;> simp [h]
  have hmain : (fetchWorkItemTree env cfg rootId
      ⟨ic, ip, md, ft, fty, 0, true, false⟩).1 =
      some (WorkItem.node
        (enrichWorkItem env ic ip rootId r (transformAdoToYaml r cfg env.nowIso))
        (fetchChildren env cfg ⟨ic, ip, md, ft, fty, 1, false, true⟩
          true ft fty (getChildIds r)).1) := by
    rw [fetchWorkItemTree]
    simp [hfetch, hfb]
  refine ⟨by rw [hmain]; rfl, ?_⟩
  intro w hw
  rw [hmain] at hw
  injection hw with hw'
  subst hw'
  show (fetchChildren env cfg ⟨ic, ip, md, ft, fty, 1, false, true⟩
    true ft fty (getChildIds r)).1 = _
  rw [fetchChildren_filter_true]
  have hT := (fetch_ignores_filters env cfg md).1
  have hnorm : ∀ cid : Int,
      (fetchWorkItemTree env cfg cid ⟨ic, ip, md, ft, fty, 1, false, true⟩).1 =
      (fetchWorkItemTree env cfg cid ⟨ic, ip, md, none, none, 1, false, false⟩).1 := by
    intro cid
    rw [hT ⟨ic, ip, md, ft, fty, 1, false, true⟩ cid rfl
      (show md + 1 - 1 ≤ md by omega)]
    rfl
  simp only [hnorm]

/-- C8 witness: the sample import — root Feature 1, children tagged
frontend/backend — with the frontend tag filter: the root is produced and
its kept children are exactly the unfiltered-fetched direct children that
pass the tag test. -/
theorem filtersOnlyDirectChildren_witness :
    (fetchWorkItemTree importEnvSample sampleCfg 1
      ⟨true, true, 10, some "frontend", none, 0, true, false⟩).1.isSome = true ∧
    (∀ w, (fetchWorkItemTree importEnvSample sampleCfg 1
        ⟨true, true, 10, some "frontend", none, 0, true, false⟩).1 = some w →
      w.children = ((getChildIds importRootResp).filterMap
          (fun cid => (fetchWorkItemTree importEnvSample sampleCfg cid
            ⟨true, true, 10, none, none, 1, false, false⟩).1)).filter
        (fun c => shouldIncludeItem c.data (some "frontend") none)) :=
  filtersOnlyDirectChildrenOfRoot importEnvSample sampleCfg
    1 importRootResp (some "frontend") none true true 10 rfl (Or.inl rfl)

end AdoSync
